import Mathlib

/-!
Shallow embedding of the state-storage and resource-accounting core of the
pulsevm repository (src/crates/pulsevm_ffi), together with proofs of the
frozen claims about it.

Conventions.  C++ machine integers are embedded as Nat (unsigned) or Int
(signed), with an explicit reduction mod 2^w at the operations where the
source can overflow.  Fallible operations (EOS_ASSERT / chainbase get) are
embedded as Except Err.  The boost multi_index containers are embedded as
lists of rows; an ordered index is a list kept in (or assumed to be in) the
index's key order, and lower bound / upper bound become the first position
whose key is not below / strictly above the probe.
-/

namespace PulseVM

/-- Every typed failure raised by EOS_ASSERT or a chainbase lookup in the
embedded fragment of the source. -/

inductive Err where
  | notFound
  | transactionException
  | rateLimitingStateInconsistent
  | txCpuUsageExceeded (account : Nat)
  | txNetUsageExceeded (account : Nat)
  | blockResourceExhausted
  | ramUsageExceeded
  | actionValidateException
  | accountQueryException
  | permissionQueryException
  | invalidTablePayer
  | tableAccessViolation
  | invalidTableIterator
  | tableNotInCache
  | invalidIterator
  | unactivatedKeyType
  | chainTypeException
  deriving Repr, DecidableEq

/-- Cardinality of the unsigned 64-bit integers. -/

def U64 : Nat := 2 ^ 64

/-- Cardinality of the unsigned 128-bit integers. -/

def U128 : Nat := 2 ^ 128

/-- UINT64_MAX. -/

def UINT64_MAX : Nat := U64 - 1

/-- Constant config::rate_limiting_precision = 1000*1000
(pulsevm/libraries/chain/include/pulsevm/chain/config.hpp). -/

def rate_limiting_precision : Nat := 1000 * 1000

/-! ## Resource-limit engine data model

The row types resource_limits_object, resource_usage_object,
resource_limits_state_object and resource_limits_config_object are declared
in resource_limits_private.hpp, which is not under src/; their fields are
reconstructed from every use in src/crates/pulsevm_ffi/database.hpp, which
is under src/ and is the code the claims are about. -/

/-- Modelled from the spec: the exponentially-decaying windowed usage
accumulator held in resource_usage_object (spec §3 "ResourceUsage";
resource_limits_private.hpp, which declares it, is not under src/).
value_ex is the decayed usage scaled by rate_limiting_precision and
last_ordinal the time slot of the last update. -/

structure UsageAccumulator where
  last_ordinal : Nat
  value_ex : Nat
  consumed : Nat
  deriving Repr, DecidableEq

/-- Modelled from the spec: folding one usage event into the decaying
accumulator ("folds the new usage into its windowed accumulator at
time_slot", spec §4.2).  Moving to a later time slot first decays value_ex
linearly towards the end of the window, then the new units are added scaled
to the window. -/

def UsageAccumulator.add (a : UsageAccumulator) (units ordinal window_size : Nat) :
    UsageAccumulator :=
  let a :=
    if a.last_ordinal ≠ ordinal ∧ a.last_ordinal < ordinal then
      let value_ex :=
        if ordinal < a.last_ordinal + window_size then
          a.value_ex * (window_size - (ordinal - a.last_ordinal)) / window_size
        else 0
      { last_ordinal := ordinal, value_ex := value_ex,
        consumed := (value_ex + rate_limiting_precision - 1) / rate_limiting_precision }
    else a
  { a with
    consumed := a.consumed + units,
    value_ex := a.value_ex + units * rate_limiting_precision / window_size }

/-- Row of the resource_limits_index: per-account quotas, with the pending
flag distinguishing the uncommitted override row (database.hpp uses the
by_owner key (pending, owner)). -/

structure ResourceLimitsRow where
  owner : Nat
  pending : Bool
  ram_bytes : Int
  net_weight : Int
  cpu_weight : Int
  deriving Repr, DecidableEq

/-- Row of the resource_usage_index: per-account decaying CPU/NET usage and
the 64-bit RAM usage counter. -/

structure ResourceUsageRow where
  owner : Nat
  net_usage : UsageAccumulator
  cpu_usage : UsageAccumulator
  ram_usage : Nat
  deriving Repr, DecidableEq

/-- The resource_limits_state_object singleton: running totals and the two
elastic virtual limits, plus the per-block pending usage counters. -/

structure ResourceLimitsState where
  virtual_cpu_limit : Nat
  virtual_net_limit : Nat
  total_cpu_weight : Nat
  total_net_weight : Nat
  total_ram_bytes : Nat
  pending_cpu_usage : Nat
  pending_net_usage : Nat
  deriving Repr, DecidableEq

/-- Parameters of one elastic limit
(pulsevm/libraries/chain/include/pulsevm/chain/resource_limits.hpp). -/

structure Ratio where
  numerator : Nat
  denominator : Nat
  deriving Repr, DecidableEq

/-- elastic_limit_parameters (resource_limits.hpp). -/

structure ElasticLimitParameters where
  target : Nat
  max : Nat
  periods : Nat
  max_multiplier : Nat
  contract_rate : Ratio
  expand_rate : Ratio
  deriving Repr, DecidableEq

/-- The resource_limits_config_object singleton: elastic parameters for CPU
and NET and the per-account averaging windows. -/

structure ResourceLimitsConfig where
  cpu_limit_parameters : ElasticLimitParameters
  net_limit_parameters : ElasticLimitParameters
  account_cpu_usage_average_window : Nat
  account_net_usage_average_window : Nat
  deriving Repr, DecidableEq

/-- The slice of database state used by the resource-limit engine.  The
limits list stands for the resource_limits_index and is kept in the order of
its by_owner key (pending, owner): active rows before pending rows. -/

structure ResDB where
  limits : List ResourceLimitsRow
  usage : List ResourceUsageRow
  state : ResourceLimitsState
  config : ResourceLimitsConfig
  deriving Repr, DecidableEq

/-- Lookup find<resource_limits_object, by_owner>((pending, owner)): the
by_owner index is unique on that key, so the first match is the match. -/

def ResDB.findLimits (db : ResDB) (pending : Bool) (owner : Nat) :
    Option ResourceLimitsRow :=
  db.limits.find? (fun r => r.pending == pending && r.owner == owner)

/-- Lookup find<resource_usage_object, by_owner>(owner). -/

def ResDB.findUsage (db : ResDB) (owner : Nat) : Option ResourceUsageRow :=
  db.usage.find? (fun r => r.owner == owner)

/-- Replacement of the (unique) usage row of an owner, as done by
database.modify on a row obtained from the by_owner index. -/

def ResDB.setUsage (db : ResDB) (owner : Nat) (f : ResourceUsageRow → ResourceUsageRow) :
    ResDB :=
  { db with usage := db.usage.map (fun r => if r.owner == owner then f r else r) }

/-- Embedding of database_wrapper::get_account_limits (database.hpp:342):
return the pending row's quotas when a pending row exists, else the active
row's quotas; chainbase get fails with NotFound when the active row is also
absent. -/

def get_account_limits (db : ResDB) (account : Nat) : Except Err (Int × Int × Int) :=
  match db.findLimits true account with
  | some pending_buo => .ok (pending_buo.ram_bytes, pending_buo.net_weight, pending_buo.cpu_weight)
  | none =>
    match db.findLimits false account with
    | some buo => .ok (buo.ram_bytes, buo.net_weight, buo.cpu_weight)
    | none => .error .notFound

/-- Embedding of database_wrapper::add_pending_ram_usage (database.hpp:275):
apply a signed 64-bit delta to the unsigned 64-bit RAM usage counter, with
explicit overflow and underflow guards that fail with transaction_exception
and leave the counter untouched. -/

def add_pending_ram_usage (db : ResDB) (account : Nat) (ram_delta : Int) :
    Except Err ResDB :=
  if ram_delta = 0 then .ok db
  else
    match db.findUsage account with
    | none => .error .notFound
    | some usage =>
      if ¬ (ram_delta ≤ 0 ∨ (ram_delta.toNat ≤ UINT64_MAX - usage.ram_usage)) then
        .error .transactionException
      else if ¬ (0 ≤ ram_delta ∨ ((-ram_delta).toNat ≤ usage.ram_usage)) then
        .error .transactionException
      else
        .ok (db.setUsage account
          (fun u => { u with ram_usage := ((u.ram_usage : Int) + ram_delta).toNat }))

/-- Order of the by_owner key (pending, owner) of the resource_limits_index:
boolean false sorts before true, then by owner. -/

def limitsKeyLt (p1 : Bool) (o1 : Nat) (p2 : Bool) (o2 : Nat) : Bool :=
  (!p1 && p2) || (p1 == p2 && o1 < o2)

/-- Insertion of a freshly created resource_limits_object at its position in
the ordered by_owner index. -/

def insertLimits (l : List ResourceLimitsRow) (r : ResourceLimitsRow) :
    List ResourceLimitsRow :=
  match l with
  | [] => [r]
  | x :: xs =>
    if limitsKeyLt r.pending r.owner x.pending x.owner then r :: x :: xs
    else x :: insertLimits xs r

/-- Replacement of the (unique) resource_limits_object with key
(pending, owner), as done by database.modify on that row. -/

def ResDB.setLimits (db : ResDB) (pending : Bool) (owner : Nat)
    (f : ResourceLimitsRow → ResourceLimitsRow) : ResDB :=
  { db with limits :=
      db.limits.map (fun r =>
        if r.pending == pending && r.owner == owner then f r else r) }

/-- Embedding of database_wrapper::set_account_limits (database.hpp:308):
find the pending row, creating it as a copy of the active row when absent
(chainbase get fails with NotFound when the active row is also absent), then
overwrite its three quotas; returns whether the RAM quota decreased. -/

def set_account_limits (db : ResDB) (account : Nat)
    (ram_bytes net_weight cpu_weight : Int) : Except Err (ResDB × Bool) :=
  let prep : Except Err (ResDB × ResourceLimitsRow) :=
    match db.findLimits true account with
    | some pending_limits => .ok (db, pending_limits)
    | none =>
      match db.findLimits false account with
      | none => .error .notFound
      | some limits =>
        let pending_limits : ResourceLimitsRow :=
          { owner := limits.owner, pending := true, ram_bytes := limits.ram_bytes,
            net_weight := limits.net_weight, cpu_weight := limits.cpu_weight }
        .ok ({ db with limits := insertLimits db.limits pending_limits }, pending_limits)
  match prep with
  | .error e => .error e
  | .ok (db1, limits) =>
    let decreased_limit : Bool :=
      if 0 ≤ ram_bytes then
        decide (limits.ram_bytes < 0) || decide (ram_bytes < limits.ram_bytes)
      else false
    .ok (db1.setLimits true account
      (fun r =>
        { r with
          ram_bytes := ram_bytes, net_weight := net_weight, cpu_weight := cpu_weight }),
      decreased_limit)

/-- Modelled from the spec: multiplication of a 64-bit value by a rate ratio
("any target language must provide an explicit wide/checked-multiply-then-
divide primitive", spec §9; the operator taking uint64_t and ratio lives in
resource_limits_private.hpp, which is not under src/): the product is formed
exactly, then divided by the denominator. -/

def mulRatio (value : Nat) (r : Ratio) : Nat :=
  value * r.numerator / r.denominator

/-- Embedding of update_elastic_limit
(pulsevm/libraries/chain/resource_limits.cpp:6): multiply the current limit
by the contract rate when the average usage is above target, else by the
expand rate, then clamp between max and max * max_multiplier; the clamp
bound max * max_multiplier is a plain uint64 product in the source, hence
the explicit reduction mod 2^64. -/

def update_elastic_limit (current_limit average_usage : Nat)
    (params : ElasticLimitParameters) : Nat :=
  let result :=
    if params.target < average_usage then mulRatio current_limit params.contract_rate
    else mulRatio current_limit params.expand_rate
  min (max result params.max) (params.max * params.max_multiplier % U64)

/-- Embedding of the update_state_and_value lambda inside
process_account_limit_updates (database.hpp:484): guarded subtract-then-add
on one global running total; subtracting the old value (only when positive)
must not underflow and adding the pending value (only when positive) must
not overflow, each violation failing with rate_limiting_state_inconsistent;
returns the new total and the new per-account value. -/

def update_state_and_value (total : Nat) (value pending_value : Int) :
    Except Err (Nat × Int) :=
  if 0 < value ∧ ¬ (value.toNat ≤ total) then .error .rateLimitingStateInconsistent
  else
    let total1 := if 0 < value then total - value.toNat else total
    if 0 < pending_value ∧ ¬ (pending_value.toNat ≤ UINT64_MAX - total1) then
      .error .rateLimitingStateInconsistent
    else
      let total2 := if 0 < pending_value then total1 + pending_value.toNat else total1
      .ok (total2, pending_value)

/-- Embedding of the while loop of process_account_limit_updates
(database.hpp:479): repeatedly take the first pending row in by_owner index
order (lower_bound on key prefix true), fold its three values into the
owner's active row while updating the three global totals (ram, then cpu,
then net), delete the pending row, and stop when no pending row remains.
The limits list stands for the by_owner index, actives before pendings, so
the first row with the pending flag is exactly lower_bound((true)).  The
fuel argument is the number of pending rows at entry; every iteration
deletes exactly one pending row, so the loop always stops by exhausting the
pending rows, never the fuel. -/

def process_loop : Nat → List ResourceLimitsRow → ResourceLimitsState →
    Except Err (List ResourceLimitsRow × ResourceLimitsState)
  | 0, limits, rso => .ok (limits, rso)
  | Nat.succ fuel, limits, rso =>
    match limits.find? (fun r => r.pending) with
    | none => .ok (limits, rso)
    | some itr =>
      match limits.find? (fun r => r.pending == false && r.owner == itr.owner) with
      | none => .error .notFound
      | some actual_entry =>
        match update_state_and_value rso.total_ram_bytes actual_entry.ram_bytes
            itr.ram_bytes with
        | .error e => .error e
        | .ok (t_ram, v_ram) =>
          match update_state_and_value rso.total_cpu_weight actual_entry.cpu_weight
              itr.cpu_weight with
          | .error e => .error e
          | .ok (t_cpu, v_cpu) =>
            match update_state_and_value rso.total_net_weight actual_entry.net_weight
                itr.net_weight with
            | .error e => .error e
            | .ok (t_net, v_net) =>
              process_loop fuel
                ((limits.map (fun r =>
                  if r.pending == false && r.owner == itr.owner then
                    { r with ram_bytes := v_ram, cpu_weight := v_cpu, net_weight := v_net }
                  else r)).eraseP (fun r => r.pending))
                { rso with total_ram_bytes := t_ram, total_cpu_weight := t_cpu,
                           total_net_weight := t_net }

/-- Embedding of process_account_limit_updates (database.hpp:479): run the
loop over the limits index and the state singleton; everything else in the
database is untouched. -/

def process_account_limit_updates (db : ResDB) : Except Err ResDB :=
  match process_loop (db.limits.countP (fun r => r.pending)) db.limits db.state with
  | .error e => .error e
  | .ok (l2, rs2) => .ok { db with limits := l2, state := rs2 }

/-- Positive part of a signed value, as used by the guarded
subtract-then-add (contributions to the totals are only the positive
values). -/

def posPart (x : Int) : Int := if 0 < x then x else 0

/-- Sum, over all pending rows, of the positive part of one field of the
owner's active row: the amount process_account_limit_updates removes from
the corresponding global total. -/

def oldContribution (l : List ResourceLimitsRow) (f : ResourceLimitsRow → Int) : Int :=
  ((l.filter (fun r => r.pending)).map (fun p =>
    ((l.find? (fun r => r.pending == false && r.owner == p.owner)).map
      (fun a => posPart (f a))).getD 0)).sum

/-- Sum, over all pending rows, of the positive part of one of their fields:
the amount process_account_limit_updates adds to the corresponding global
total. -/

def newContribution (l : List ResourceLimitsRow) (f : ResourceLimitsRow → Int) : Int :=
  ((l.filter (fun r => r.pending)).map (fun p => posPart (f p))).sum

/-- Uniqueness of the by_owner key (pending, owner) across the limits index,
as guaranteed by the ordered_unique chainbase index. -/

def keysNodup (l : List ResourceLimitsRow) : Prop :=
  (l.map (fun r => (r.pending, r.owner))).Nodup

/-- Postcondition of a successful process_loop run: no pending row remains,
actives without a pending counterpart survive unchanged, every active with a
pending counterpart ends up carrying the pending values, the three global
totals move by exactly the guarded subtract-then-add net effect, and no
other state field moves. -/

def LoopSpec (limits : List ResourceLimitsRow) (rso : ResourceLimitsState)
    (l2 : List ResourceLimitsRow) (rs2 : ResourceLimitsState) : Prop :=
  l2.countP (fun r => r.pending) = 0 ∧
  (∀ a ∈ limits, a.pending = false →
    (∀ p ∈ limits, p.pending = true → p.owner ≠ a.owner) → a ∈ l2) ∧
  (∀ p ∈ limits, p.pending = true → ∀ a ∈ limits, a.pending = false →
    a.owner = p.owner →
    { a with ram_bytes := p.ram_bytes, cpu_weight := p.cpu_weight,
             net_weight := p.net_weight } ∈ l2) ∧
  (rs2.total_ram_bytes : Int) =
    (rso.total_ram_bytes : Int)
      - oldContribution limits (fun r => r.ram_bytes)
      + newContribution limits (fun r => r.ram_bytes) ∧
  (rs2.total_cpu_weight : Int) =
    (rso.total_cpu_weight : Int)
      - oldContribution limits (fun r => r.cpu_weight)
      + newContribution limits (fun r => r.cpu_weight) ∧
  (rs2.total_net_weight : Int) =
    (rso.total_net_weight : Int)
      - oldContribution limits (fun r => r.net_weight)
      + newContribution limits (fun r => r.net_weight) ∧
  rs2.virtual_cpu_limit = rso.virtual_cpu_limit ∧
  rs2.virtual_net_limit = rso.virtual_net_limit ∧
  rs2.pending_cpu_usage = rso.pending_cpu_usage ∧
  rs2.pending_net_usage = rso.pending_net_usage

/-- Concrete database with one active limits row (owner 5: ram 10, net 20,
cpu 30), one pending row (owner 5: ram 1, net 2, cpu 3), and totals
(ram 100, cpu 300, net 200). -/

def c6db : ResDB :=
  { limits := [{ owner := 5, pending := false, ram_bytes := 10, net_weight := 20,
                 cpu_weight := 30 },
               { owner := 5, pending := true, ram_bytes := 1, net_weight := 2,
                 cpu_weight := 3 }],
    usage := [],
    state := { virtual_cpu_limit := 0, virtual_net_limit := 0, total_cpu_weight := 300,
               total_net_weight := 200, total_ram_bytes := 100, pending_cpu_usage := 0,
               pending_net_usage := 0 },
    config := { cpu_limit_parameters :=
                  { target := 0, max := 0, periods := 1, max_multiplier := 1,
                    contract_rate := ⟨1, 1⟩, expand_rate := ⟨1, 1⟩ },
                net_limit_parameters :=
                  { target := 0, max := 0, periods := 1, max_multiplier := 1,
                    contract_rate := ⟨1, 1⟩, expand_rate := ⟨1, 1⟩ },
                account_cpu_usage_average_window := 1,
                account_net_usage_average_window := 1 } }

/-- Expected result of processing c6db: pending folded into the active row
and the totals moved by the guarded subtract-then-add. -/

def c6db2 : ResDB :=
  { limits := [{ owner := 5, pending := false, ram_bytes := 1, net_weight := 2,
                 cpu_weight := 3 }],
    usage := [],
    state := { virtual_cpu_limit := 0, virtual_net_limit := 0, total_cpu_weight := 273,
               total_net_weight := 182, total_ram_bytes := 91, pending_cpu_usage := 0,
               pending_net_usage := 0 },
    config := c6db.config }

/-- Concrete elastic parameters: target 10, max 100, multiplier 5, contract
rate 99/100, expand rate 1000/999. -/

def c7params : ElasticLimitParameters :=
  { target := 10, max := 100, periods := 1, max_multiplier := 5,
    contract_rate := ⟨99, 100⟩, expand_rate := ⟨1000, 999⟩ }

/-! ## Permission and authority graph (objects.hpp / permission_object.hpp) -/

/-- An authority (authority.hpp is not under src/; the embedded code in
database.hpp reads only the threshold, the keys with their variant index
k.key.which() and weight, the account-permission pairs with weights, and the
wait weights, so those are the fields modelled). -/

structure Authority where
  threshold : Nat
  keys : List (Nat × Nat)
  accounts : List ((Nat × Nat) × Nat)
  waits : List (Nat × Nat)
  deriving Repr, DecidableEq

/-- The permission_object row (permission_object.hpp). -/

structure PermissionRow where
  id : Nat
  usage_id : Nat
  parent : Nat
  owner : Nat
  perm_name : Nat
  last_updated : Nat
  auth : Authority
  deriving Repr, DecidableEq

/-- The permission_usage_object row (permission_object.hpp). -/

structure PermissionUsageRow where
  id : Nat
  last_used : Nat
  deriving Repr, DecidableEq

/-- The slice of database state used by the permission graph; lists are kept
in by_id order (creation appends fresh, monotonically increasing ids),
mirroring the chainbase object id allocator. num_supported_key_types comes
from the protocol_state_object singleton. -/

structure PermDB where
  permissions : List PermissionRow
  usages : List PermissionUsageRow
  next_permission_id : Nat
  next_usage_id : Nat
  num_supported_key_types : Nat
  deriving Repr, DecidableEq

/-- Embedding of database_wrapper::create_permission (the authority
overload, database.hpp:776): validate every key type against the activated
count, create the PermissionUsage row stamped with the creation time, then
the Permission row linking to it; returns the new row. -/

def create_permission (db : PermDB) (account permission_name parent : Nat)
    (auth : Authority) (creation_time : Nat) : Except Err (PermDB × PermissionRow) :=
  if auth.keys.all (fun k => k.1 < db.num_supported_key_types) then
    let perm_usage : PermissionUsageRow :=
      { id := db.next_usage_id, last_used := creation_time }
    let perm : PermissionRow :=
      { id := db.next_permission_id, usage_id := perm_usage.id, parent := parent,
        owner := account, perm_name := permission_name,
        last_updated := creation_time, auth := auth }
    .ok ({ db with
           usages := db.usages ++ [perm_usage],
           permissions := db.permissions ++ [perm],
           next_usage_id := db.next_usage_id + 1,
           next_permission_id := db.next_permission_id + 1 }, perm)
  else .error .unactivatedKeyType

/-- Embedding of database_wrapper::remove_permission (database.hpp:724):
fail when the by_parent range of the permission's id is non-empty ("remove
the children first"), else delete the PermissionUsage row by its id and then
the Permission row. -/

def remove_permission (db : PermDB) (permission : PermissionRow) :
    Except Err PermDB :=
  if (db.permissions.filter (fun r => r.parent == permission.id)).isEmpty then
    .ok { db with
          usages := db.usages.eraseP (fun u => u.id == permission.usage_id),
          permissions := db.permissions.eraseP (fun r => r.id == permission.id) }
  else .error .actionValidateException

/-- Concrete permission database: a single root permission A (id 1). -/

def c8db : PermDB :=
  { permissions := [{ id := 1, usage_id := 0, parent := 0, owner := 7, perm_name := 11,
                      last_updated := 0, auth := ⟨1, [], [], []⟩ }],
    usages := [{ id := 0, last_used := 0 }],
    next_permission_id := 2, next_usage_id := 1, num_supported_key_types := 2 }

/-- The permission row A of c8db. -/

def c8A : PermissionRow :=
  { id := 1, usage_id := 0, parent := 0, owner := 7, perm_name := 11,
    last_updated := 0, auth := ⟨1, [], [], []⟩ }

/-! ## Permission links (link_auth / unlink_auth, database.hpp:676) -/

/-- Modelled from the spec: the value of one character in the 8-byte name
encoding ("identified by a human-readable name (8-byte encoded)", spec §3);
the encoder itself (name.hpp's implementation) is not under src/. -/

def charToSymbol (c : Char) : Nat :=
  if 'a' ≤ c ∧ c ≤ 'z' then c.toNat - 'a'.toNat + 6
  else if '1' ≤ c ∧ c ≤ '5' then c.toNat - '1'.toNat + 1
  else 0

/-- Modelled from the spec: the 8-byte encoding of a short (at most
12-character) name, 5 bits per character from the top of the 64-bit word. -/

def stringToName (s : String) : Nat :=
  (List.range (min s.length 12)).foldl
    (fun v i => v + charToSymbol (s.get ⟨i⟩) % 32 * 2 ^ (64 - 5 * (i + 1))) 0

/-- The wildcard sentinel config::any_name = "pulse.any"
(pulsevm/libraries/chain/include/pulsevm/chain/config.hpp:74). -/

def any_name : Nat := stringToName "pulse.any"

/-- Modelled from the spec: the fixed per-row billable size
config::billable_size_v of a permission_link_object ("a fixed per-row
billable size", spec §4.3); the specialization of config::billable_size for
permission_link_object is not under src/.  Raw size 40 bytes plus 5 index
rows of 32 bytes overhead, rounded up to the 16-byte billable alignment of
config.hpp. -/

def billable_size_permission_link_object : Nat :=
  (40 + 5 * 32 + 16 - 1) / 16 * 16

/-- The permission_link_object row (objects.hpp:156). -/

structure PermissionLinkRow where
  account : Nat
  code : Nat
  message_type : Nat
  required_permission : Nat
  deriving Repr, DecidableEq

/-- The slice of database state used by link_auth / unlink_auth: the account
names present in the account index, the (owner, name) keys present in the
permission index, and the permission-link rows. -/

structure LinkDB where
  accounts : List Nat
  permissions : List (Nat × Nat)
  links : List PermissionLinkRow
  deriving Repr, DecidableEq

/-- The shared tail of link_auth (database.hpp:690): find the link by its
(account, code, message-type) key; re-pointing it to the identical
requirement is a rejected no-op, re-pointing to a different one returns 0,
and creating a fresh link row returns its billable size. -/

def link_auth_update (db : LinkDB) (account_name code_name requirement_name
    requirement_type : Nat) : Except Err (Int × LinkDB) :=
  match db.links.find? (fun l => l.account == account_name && l.code == code_name &&
      l.message_type == requirement_type) with
  | some link =>
    if link.required_permission = requirement_name then .error .actionValidateException
    else
      .ok (0,
        { db with links :=
            db.links.map (fun l =>
              if l.account == account_name && l.code == code_name &&
                  l.message_type == requirement_type then
                { l with required_permission := requirement_name }
              else l) })
  | none =>
    .ok ((billable_size_permission_link_object : Int),
      { db with links := db.links ++
        [{ account := account_name, code := code_name,
           message_type := requirement_type,
           required_permission := requirement_name }] })

/-- Embedding of database_wrapper::link_auth (database.hpp:676): the account
and the code account must exist; unless the requirement is the wildcard
any_name, the permission (account, requirement) must exist; then create or
re-point the link, returning the signed RAM delta. -/

def link_auth (db : LinkDB) (account_name code_name requirement_name
    requirement_type : Nat) : Except Err (Int × LinkDB) :=
  if ¬ (account_name ∈ db.accounts) then .error .accountQueryException
  else if ¬ (code_name ∈ db.accounts) then .error .accountQueryException
  else if requirement_name ≠ any_name then
    match db.permissions.find? (fun p => p.1 == account_name && p.2 == requirement_name) with
    | none => .error .permissionQueryException
    | some _ => link_auth_update db account_name code_name requirement_name requirement_type
  else link_auth_update db account_name code_name requirement_name requirement_type

/-- Embedding of database_wrapper::unlink_auth (database.hpp:712): the link
must exist; remove it and refund its fixed billable size. -/

def unlink_auth (db : LinkDB) (account_name code_name requirement_type : Nat) :
    Except Err (Int × LinkDB) :=
  match db.links.find? (fun l => l.account == account_name && l.code == code_name &&
      l.message_type == requirement_type) with
  | none => .error .actionValidateException
  | some _ =>
    .ok (-(billable_size_permission_link_object : Int),
      { db with links := db.links.eraseP (fun l => l.account == account_name &&
          l.code == code_name && l.message_type == requirement_type) })

/-- Concrete link database with accounts 1 and 2, permissions (1,4) and
(1,5), and one link (1,2,3) requiring permission 4. -/

def c9db : LinkDB :=
  { accounts := [1, 2], permissions := [(1, 4), (1, 5)],
    links := [{ account := 1, code := 2, message_type := 3,
                required_permission := 4 }] }

/-- The same link database before any link is created. -/

def c9base : LinkDB :=
  { accounts := [1, 2], permissions := [(1, 4), (1, 5)], links := [] }

/-! ## Contract table engine (objects.hpp, database.hpp cursor functions) -/

/-- Cardinality of the unsigned 32-bit integers. -/

def U32 : Nat := 2 ^ 32

/-- The table_id_object row (objects.hpp:224). -/

structure TableRow where
  id : Nat
  code : Nat
  scope : Nat
  table : Nat
  payer : Nat
  count : Nat
  deriving Repr, DecidableEq

/-- The key_value_object row (objects.hpp:260); the by_scope_primary index
orders the rows of all tables in one shared sequence keyed by
(t_id, primary_key). -/

structure KV where
  t_id : Nat
  primary_key : Nat
  payer : Nat
  value : List Nat
  deriving Repr, DecidableEq

/-- The slice of database state used by the contract table engine: the
table_id index and the shared by_scope_primary key-value index, the latter
kept in (t_id, primary_key) order. -/

structure ContractDB where
  tables : List TableRow
  kvIndex : List KV
  deriving Repr, DecidableEq

/-- Modelled from the spec: the caller-held iterator cache of spec §4.4
(iterator_cache.hpp is not under src/): small integers map to live rows, -1
is the distinguished "no such element" value, and each cached table owns a
distinguished end iterator, the k-th cached table having end iterator
-(k+2); row handles index the object list, and removing a handle leaves a
hole so other handles stay stable. -/

structure IteratorCache where
  tables : List TableRow
  objects : List (Option KV)
  deriving Repr, DecidableEq

/-- Modelled from the spec: cache a table (idempotently) and return its end
iterator. -/

def IteratorCache.cacheTable (c : IteratorCache) (tab : TableRow) :
    Int × IteratorCache :=
  match c.tables.findIdx? (fun t => t.id == tab.id) with
  | some k => (-(k + 2 : Int), c)
  | none => (-(c.tables.length + 2 : Int), { c with tables := c.tables ++ [tab] })

/-- Modelled from the spec: the cached end iterator of a table id; the
source asserts the table is already in the cache. -/

def IteratorCache.getEndIteratorByTableId (c : IteratorCache) (tid : Nat) :
    Except Err Int :=
  match c.tables.findIdx? (fun t => t.id == tid) with
  | some k => .ok (-(k + 2 : Int))
  | none => .error .tableNotInCache

/-- Modelled from the spec: the cached table owning an end iterator; values
not below -1 are not end iterators. -/

def IteratorCache.findTableByEndIterator (c : IteratorCache) (ei : Int) :
    Except Err (Option TableRow) :=
  if -1 ≤ ei then .error .invalidTableIterator
  else .ok c.tables[(-ei - 2).toNat]?

/-- Modelled from the spec: the cached table of a table id; the source
asserts it is in the cache. -/

def IteratorCache.getTable (c : IteratorCache) (tid : Nat) : Except Err TableRow :=
  match c.tables.find? (fun t => t.id == tid) with
  | some t => .ok t
  | none => .error .tableNotInCache

/-- Modelled from the spec: resolve a row handle; -1, end iterators and
dropped handles are rejected. -/

def IteratorCache.get (c : IteratorCache) (it : Int) : Except Err KV :=
  if it < 0 then .error .invalidIterator
  else
    match c.objects[it.toNat]? with
    | some (some obj) => .ok obj
    | _ => .error .invalidIterator

/-- Modelled from the spec: add a row to the cache, returning its fresh
handle. -/

def IteratorCache.add (c : IteratorCache) (obj : KV) : Int × IteratorCache :=
  ((c.objects.length : Int), { c with objects := c.objects ++ [some obj] })

/-- Modelled from the spec: drop a row handle from the cache. -/

def IteratorCache.remove (c : IteratorCache) (it : Int) : IteratorCache :=
  if it < 0 then c
  else { c with objects := c.objects.set it.toNat none }

/-- The successor of a row in the shared by_scope_primary index
(idx.iterator_to(obj) followed by ++itr): the element after the row's
position; over a row that is not in the index the source iterator is
invalid, embedded as an error. -/

def succRow (idx : List KV) (obj : KV) : Except Err (Option KV) :=
  match idx.findIdx? (fun r => r.t_id == obj.t_id && r.primary_key == obj.primary_key) with
  | none => .error .invalidIterator
  | some i => .ok idx[i + 1]?

/-- Embedding of database_wrapper::db_next_i64 (database.hpp:913): an end
iterator cannot be incremented (returns -1); otherwise resolve the cached
row, step to its successor in the shared index, and either return the
cached end iterator of the row's table (successor missing or owned by a
different table) or cache the successor row, yielding its primary key. -/

def db_next_i64 (db : ContractDB) (cache : IteratorCache) (iterator : Int) :
    Except Err (Int × IteratorCache × Option Nat) :=
  if iterator < -1 then .ok (-1, cache, none)
  else
    match cache.get iterator with
    | .error e => .error e
    | .ok obj =>
      match succRow db.kvIndex obj with
      | .error e => .error e
      | .ok onxt =>
        match onxt with
        | some nxt =>
          if nxt.t_id == obj.t_id then
            let pr := cache.add nxt
            .ok (pr.1, pr.2, some nxt.primary_key)
          else
            match cache.getEndIteratorByTableId obj.t_id with
            | .error e => .error e
            | .ok ei => .ok (ei, cache, none)
        | none =>
          match cache.getEndIteratorByTableId obj.t_id with
          | .error e => .error e
          | .ok ei => .ok (ei, cache, none)

/-- Embedding of database_wrapper::db_previous_i64 (database.hpp:928): an
end iterator steps to the last row of its table (via upper_bound on the
table id), returning -1 on an empty table or empty index; a row iterator
steps to the predecessor in the shared index, returning -1 at the index
beginning or when the predecessor belongs to a different table. -/

def db_previous_i64 (db : ContractDB) (cache : IteratorCache) (iterator : Int) :
    Except Err (Int × IteratorCache × Option Nat) :=
  if iterator < -1 then
    match cache.findTableByEndIterator iterator with
    | .error e => .error e
    | .ok otab =>
      match otab with
      | none => .error .invalidTableIterator
      | some tab =>
        let i := db.kvIndex.findIdx (fun r => tab.id < r.t_id)
        if db.kvIndex.isEmpty ∨ i = 0 then .ok (-1, cache, none)
        else
          match db.kvIndex[i - 1]? with
          | none => .ok (-1, cache, none)
          | some prev =>
            if prev.t_id ≠ tab.id then .ok (-1, cache, none)
            else
              let pr := cache.add prev
              .ok (pr.1, pr.2, some prev.primary_key)
  else
    match cache.get iterator with
    | .error e => .error e
    | .ok obj =>
      match db.kvIndex.findIdx? (fun r => r.t_id == obj.t_id &&
          r.primary_key == obj.primary_key) with
      | none => .error .invalidIterator
      | some i =>
        if i = 0 then .ok (-1, cache, none)
        else
          match db.kvIndex[i - 1]? with
          | none => .ok (-1, cache, none)
          | some prev =>
            if prev.t_id ≠ obj.t_id then .ok (-1, cache, none)
            else
              let pr := cache.add prev
              .ok (pr.1, pr.2, some prev.primary_key)

/-- Modelled from the spec: the fixed per-row billable size
config::billable_size_v of a key_value_object ("fixed per-row billable
size"); the specialization of config::billable_size for key_value_object is
not under src/.  Raw field size 44 bytes plus 2 index rows of 32 bytes
overhead, rounded up to the 16-byte billable alignment of config.hpp. -/

def billable_size_key_value_object : Nat :=
  (44 + 2 * 32 + 16 - 1) / 16 * 16

/-- Embedding of database_wrapper::db_remove_i64 (database.hpp:893): the
owning table's code account must equal the receiver (else
table_access_violation, raised before any mutation); on success the row is
removed, the table's uint32 row count decremented, the table itself deleted
when the count reaches zero, the handle dropped from the cache, and the
negative RAM delta returned. -/

def db_remove_i64 (db : ContractDB) (cache : IteratorCache) (iterator : Int)
    (receiver : Nat) : Except Err (Int × ContractDB × IteratorCache) :=
  match cache.get iterator with
  | .error e => .error e
  | .ok obj =>
    match cache.getTable obj.t_id with
    | .error e => .error e
    | .ok table_obj =>
      if table_obj.code ≠ receiver then .error .tableAccessViolation
      else
        let delta : Int := -((obj.value.length + billable_size_key_value_object : Nat) : Int)
        let newCount := (table_obj.count + (U32 - 1)) % U32
        let tables1 := db.tables.map (fun t =>
          if t.id == table_obj.id then { t with count := newCount } else t)
        let kv1 := db.kvIndex.eraseP (fun r => r.t_id == obj.t_id &&
          r.primary_key == obj.primary_key)
        let tables2 :=
          if newCount = 0 then tables1.eraseP (fun t => t.id == table_obj.id) else tables1
        .ok (delta, { tables := tables2, kvIndex := kv1 }, cache.remove iterator)

/-- Application of a whole sequence of RAM deltas in order, as a caller of
add_pending_ram_usage would; the first failing delta aborts the sequence. -/

def applyRamDeltas (db : ResDB) (account : Nat) (ds : List Int) : Except Err ResDB :=
  ds.foldlM (fun db δ => add_pending_ram_usage db account δ) db

/-- Concrete resource-limit configuration used by witnesses. -/

def sampleConfig : ResourceLimitsConfig :=
  { cpu_limit_parameters :=
      { target := 0, max := 0, periods := 1, max_multiplier := 1,
        contract_rate := ⟨1, 1⟩, expand_rate := ⟨1, 1⟩ },
    net_limit_parameters :=
      { target := 0, max := 0, periods := 1, max_multiplier := 1,
        contract_rate := ⟨1, 1⟩, expand_rate := ⟨1, 1⟩ },
    account_cpu_usage_average_window := 1,
    account_net_usage_average_window := 1 }

/-- Concrete global resource-limit state used by witnesses. -/

def sampleState : ResourceLimitsState :=
  { virtual_cpu_limit := 0, virtual_net_limit := 0, total_cpu_weight := 0,
    total_net_weight := 0, total_ram_bytes := 0, pending_cpu_usage := 0,
    pending_net_usage := 0 }

/-- Concrete database with an active limits row for owner 7 and no pending
row. -/

def c3db : ResDB :=
  { limits := [{ owner := 7, pending := false, ram_bytes := 1000,
                 net_weight := 5, cpu_weight := 9 }],
    usage := [], state := sampleState, config := sampleConfig }

/-- Concrete database with one usage row (owner 7, ram_usage 100). -/

def c5db : ResDB :=
  { limits := [],
    usage := [{ owner := 7, net_usage := ⟨0, 0, 0⟩, cpu_usage := ⟨0, 0, 0⟩, ram_usage := 100 }],
    state := sampleState, config := sampleConfig }

/-- Table with id 1 owned by code account 100, one row. -/

def c1T1 : TableRow :=
  { id := 1, code := 100, scope := 0, table := 11, payer := 7, count := 1 }

/-- Table with id 2 owned by code account 100, one row. -/

def c1T2 : TableRow :=
  { id := 2, code := 100, scope := 0, table := 12, payer := 7, count := 1 }

/-- Row of table 1 with primary key 10. -/

def c1kvA : KV := { t_id := 1, primary_key := 10, payer := 7, value := [] }

/-- Row of table 2 with primary key 5. -/

def c1kvB : KV := { t_id := 2, primary_key := 5, payer := 7, value := [] }

/-- Concrete contract database: two tables, one row each, adjacent in the
shared index. -/

def c1db : ContractDB := { tables := [c1T1, c1T2], kvIndex := [c1kvA, c1kvB] }

/-- Concrete iterator cache holding both tables and a handle 0 on the row of
table 1. -/

def c1cache : IteratorCache :=
  { tables := [c1T1, c1T2], objects := [some c1kvA] }

/-- Concrete table for the removal scenario: code account 100, one row. -/

def c10T1 : TableRow :=
  { id := 1, code := 100, scope := 0, table := 11, payer := 7, count := 1 }

/-- Concrete row of that table with a 3-byte payload. -/

def c10kv : KV := { t_id := 1, primary_key := 10, payer := 7, value := [1, 2, 3] }

/-- Concrete contract database for the removal scenario. -/

def c10db : ContractDB := { tables := [c10T1], kvIndex := [c10kv] }

/-- Concrete iterator cache with handle 0 on the row. -/

def c10cache : IteratorCache := { tables := [c10T1], objects := [some c10kv] }

/-- A table row with count 5, for the decrement arithmetic. -/

def c10tab5 : TableRow :=
  { id := 1, code := 0, scope := 0, table := 0, payer := 0, count := 5 }

/-! ## Transaction usage admission (database.hpp:208 add_transaction_usage) -/

/-- The windowed CPU usage of a usage row scaled to the window
(database.hpp:227): (value_ex * window_size) / rate_limiting_precision in
unsigned 128-bit arithmetic. -/

def cpu_used_in_window (db : ResDB) (u : ResourceUsageRow) : Nat :=
  u.cpu_usage.value_ex * db.config.account_cpu_usage_average_window % U128 /
    rate_limiting_precision

/-- The CPU amount an account may use in the window (database.hpp:226,232):
(virtual_cpu_limit * window_size * user_weight) / all_user_weight in
unsigned 128-bit arithmetic. -/

def cpu_allowed_in_window (db : ResDB) (cpu_weight : Int) : Nat :=
  (db.state.virtual_cpu_limit * db.config.account_cpu_usage_average_window % U128) *
    cpu_weight.toNat % U128 / db.state.total_cpu_weight

/-- The windowed NET usage of a usage row scaled to the window
(database.hpp:247). -/

def net_used_in_window (db : ResDB) (u : ResourceUsageRow) : Nat :=
  u.net_usage.value_ex * db.config.account_net_usage_average_window % U128 /
    rate_limiting_precision

/-- The NET amount an account may use in the window (database.hpp:246,252). -/

def net_allowed_in_window (db : ResDB) (net_weight : Int) : Nat :=
  (db.state.virtual_net_limit * db.config.account_net_usage_average_window % U128) *
    net_weight.toNat % U128 / db.state.total_net_weight

/-- The per-account usage update of database.hpp:219-222: fold the new NET
and CPU usage into the row's decaying accumulators at the given time slot. -/

def foldUsage (db : ResDB) (u : ResourceUsageRow) (cpu_usage net_usage time_slot : Nat) :
    ResourceUsageRow :=
  { u with
    net_usage := u.net_usage.add net_usage time_slot
      db.config.account_net_usage_average_window,
    cpu_usage := u.cpu_usage.add cpu_usage time_slot
      db.config.account_cpu_usage_average_window }

/-- The CPU admission check of database.hpp:224-241: only accounts with
cpu_weight >= 0 and a positive global total are checked; failure raises
tx_cpu_usage_exceeded naming the account. -/

def cpu_gate (db : ResDB) (u : ResourceUsageRow) (cpu_weight : Int) (ac : Nat) :
    Except Err Unit :=
  if 0 ≤ cpu_weight ∧ 0 < db.state.total_cpu_weight then
    if ¬ (cpu_used_in_window db u ≤ cpu_allowed_in_window db cpu_weight) then
      .error (.txCpuUsageExceeded ac)
    else .ok ()
  else .ok ()

/-- The NET admission check of database.hpp:243-262, run after the CPU
check; on success it passes the updated database through. -/

def net_gate (db : ResDB) (u : ResourceUsageRow) (net_weight : Int) (ac : Nat)
    (db1 : ResDB) : Except Err ResDB :=
  if 0 ≤ net_weight ∧ 0 < db.state.total_net_weight then
    if ¬ (net_used_in_window db u ≤ net_allowed_in_window db net_weight) then
      .error (.txNetUsageExceeded ac)
    else .ok db1
  else .ok db1

/-- One iteration of the account loop of add_transaction_usage
(database.hpp:212-263): look up the usage row and the account limits, fold
the new usage into the accumulators, then run the CPU check and the NET
check against the updated accumulators.  On an exception chainbase rolls the
transaction back, which the Except embedding renders by returning no state. -/

def ata_account (db : ResDB) (ac cpu_usage net_usage time_slot : Nat) :
    Except Err ResDB :=
  match db.findUsage ac with
  | none => .error .notFound
  | some u0 =>
    match get_account_limits db ac with
    | .error e => .error e
    | .ok lims =>
      match cpu_gate db (foldUsage db u0 cpu_usage net_usage time_slot) lims.2.2 ac with
      | .error e => .error e
      | .ok _ =>
        net_gate db (foldUsage db u0 cpu_usage net_usage time_slot) lims.2.1 ac
          (db.setUsage ac (fun bu => foldUsage db bu cpu_usage net_usage time_slot))

/-- The account loop of add_transaction_usage, in list order. -/

def ata_loop (cpu_usage net_usage time_slot : Nat) :
    List Nat → ResDB → Except Err ResDB
  | [], db => .ok db
  | ac :: rest, db =>
    match ata_account db ac cpu_usage net_usage time_slot with
    | .error e => .error e
    | .ok db2 => ata_loop cpu_usage net_usage time_slot rest db2

/-- Embedding of database_wrapper::add_transaction_usage (database.hpp:208):
per-account admission in list order, then the uint64 per-block counters are
bumped and checked against the configured block maxima
(block_resource_exhausted). -/

def add_transaction_usage (db : ResDB) (accounts : List Nat)
    (cpu_usage net_usage time_slot : Nat) : Except Err ResDB :=
  match ata_loop cpu_usage net_usage time_slot accounts db with
  | .error e => .error e
  | .ok db2 =>
    if ¬ ((db2.state.pending_cpu_usage + cpu_usage) % U64 ≤
        db2.config.cpu_limit_parameters.max) then
      .error .blockResourceExhausted
    else if ¬ ((db2.state.pending_net_usage + net_usage) % U64 ≤
        db2.config.net_limit_parameters.max) then
      .error .blockResourceExhausted
    else .ok { db2 with state := { db2.state with
      pending_cpu_usage := (db2.state.pending_cpu_usage + cpu_usage) % U64,
      pending_net_usage := (db2.state.pending_net_usage + net_usage) % U64 } }

/-- Elastic parameters with block maxima of 1000000. -/

def c4params : ElasticLimitParameters :=
  { target := 10, max := 1000000, periods := 1, max_multiplier := 1,
    contract_rate := ⟨1, 1⟩, expand_rate := ⟨1, 1⟩ }

/-- Config with one-slot averaging windows. -/

def c4cfg : ResourceLimitsConfig :=
  { cpu_limit_parameters := c4params, net_limit_parameters := c4params,
    account_cpu_usage_average_window := 1,
    account_net_usage_average_window := 1 }

/-- Congested state: both virtual limits 0, both weight totals 1. -/

def c4state : ResourceLimitsState :=
  { virtual_cpu_limit := 0, virtual_net_limit := 0, total_cpu_weight := 1,
    total_net_weight := 1, total_ram_bytes := 0, pending_cpu_usage := 0,
    pending_net_usage := 0 }

/-- Fresh usage row for account 1. -/

def c4u0 : ResourceUsageRow :=
  { owner := 1, net_usage := ⟨0, 0, 0⟩, cpu_usage := ⟨0, 0, 0⟩, ram_usage := 0 }

/-- Database where account 1 has weight 1 for both CPU and NET and both
virtual limits are 0, so any usage exceeds both admission bounds. -/

def c4db : ResDB :=
  { limits := [{ owner := 1, pending := false, ram_bytes := 0,
                 net_weight := 1, cpu_weight := 1 }],
    usage := [c4u0], state := c4state, config := c4cfg }

/-- Database where account 1 has weight -1 for both CPU and NET (unlimited). -/

def c4wdb : ResDB :=
  { limits := [{ owner := 1, pending := false, ram_bytes := 0,
                 net_weight := -1, cpu_weight := -1 }],
    usage := [c4u0], state := c4state, config := c4cfg }

/-! ## Table scans (api.hpp:187 get_table_rows_ex, primary i64 index) -/

/-- The decimal digit loop of boost lexical_cast<uint64_t>, the first
branch of convert_to_type (api.cpp:358): accumulate base-10 digits, fail on
any non-digit character.  The scenarios of claim C2 use only decimal
strings, so the name/symbol fallback branches of convert_to_type are not
embedded and collapse to the final chain_type_exception. -/

def digitsToNat : List Char → Nat → Option Nat
  | [], acc => some acc
  | c :: cs, acc =>
    if '0' ≤ c ∧ c ≤ '9' then
      digitsToNat cs (acc * 10 + (c.toNat - ('0').toNat))
    else none

/-- The bound conversion of api.hpp:209-227 composed with its size() guard:
an empty bound keeps the default, a non-empty one is parsed as a decimal
uint64 (the first, lexical_cast branch of convert_to_type, embedded above
as digitsToNat). -/

def parseBound (s : String) (dflt : Nat) : Except Err Nat :=
  if s.isEmpty then .ok dflt
  else
    match digitsToNat s.data 0 with
    | some v => if v ≤ UINT64_MAX then .ok v else .error .chainTypeException
    | none => .error .chainTypeException

/-- Lookup find<table_id_object, by_code_scope_table>((code, scope, table))
(api.hpp:203). -/

def findTable (db : ContractDB) (code scope table : Nat) : Option TableRow :=
  db.tables.find? (fun t => t.code == code && t.scope == scope && t.table == table)

/-- Position of idx.lower_bound((t_id, lo)) in the shared by_scope_primary
index (api.hpp:251): the first row whose (t_id, primary_key) key is not
below (tid, lo). -/

def lowerIdx (db : ContractDB) (tid lo : Nat) : Nat :=
  db.kvIndex.findIdx (fun r =>
    decide (tid < r.t_id ∨ (r.t_id = tid ∧ lo ≤ r.primary_key)))

/-- Position of idx.upper_bound((t_id, hi)) (api.hpp:252): the first row
whose key is above (tid, hi). -/

def upperIdx (db : ContractDB) (tid hi : Nat) : Nat :=
  db.kvIndex.findIdx (fun r =>
    decide (tid < r.t_id ∨ (r.t_id = tid ∧ hi < r.primary_key)))

/-- The iterator range [lower, upper) the walk covers, as the corresponding
segment of the shared index. -/

def tableSeg (db : ContractDB) (tid lo hi : Nat) : List KV :=
  (db.kvIndex.drop (lowerIdx db tid lo)).take (upperIdx db tid hi - lowerIdx db tid lo)

/-- Embedding of the walk loop of api.hpp:239-244: while count < limit and
rows remain, copy the row and append (data, payer); when the deadline
oracle fires at this count the loop breaks AFTER appending and BEFORE the
iterator is advanced, so the returned remainder still starts at the row
just emitted.  Returns the emitted rows and the remaining iterator range. -/

def walkLoop (dl : Nat → Bool) (limit : Nat) :
    List KV → Nat → (List (List Nat × Nat) × List KV)
  | rows, count =>
    if count < limit then
      match rows with
      | [] => ([], [])
      | r :: rest =>
        if dl count then ([(r.value, r.payer)], r :: rest)
        else
          let pr := walkLoop dl limit rest (count + 1)
          ((r.value, r.payer) :: pr.1, pr.2)
    else ([], rows)

/-- Embedding of get_table_rows_ex (api.hpp:187) on the primary i64 index:
find the table by (code, scope, table) (empty result when absent), parse
the bounds (defaults 0 and uint64-max), return an empty result when the
upper bound is below the lower; clamp the requested limit to
max_return_items = 1000 when a wall-clock deadline is in effect
(api.hpp:237), walk the [lower_bound, upper_bound] segment (reversed when
reverse is set), and when rows remain unread set more = true and next_key
to the decimal string of the first unread row's primary key
(api.hpp:245-248).  The deadline oracle dl says whether the wall clock has
passed params_deadline when checked after the count-th emitted row. -/

def get_table_rows_ex (db : ContractDB) (code scope table : Nat)
    (lower_bound upper_bound : String) (limit : Nat) (reverse : Bool)
    (deadline_finite : Bool) (dl : Nat → Bool) :
    Except Err (List (List Nat × Nat) × Bool × String) :=
  match findTable db code scope table with
  | none => .ok ([], false, "")
  | some t =>
    match parseBound lower_bound 0 with
    | .error e => .error e
    | .ok lo =>
      match parseBound upper_bound UINT64_MAX with
      | .error e => .error e
      | .ok hi =>
        if hi < lo then .ok ([], false, "")
        else
          let limit2 := if deadline_finite ∧ 1000 < limit then 1000 else limit
          let seg := tableSeg db t.id lo hi
          let seg2 := if reverse then seg.reverse else seg
          let pr := walkLoop dl limit2 seg2 0
          match pr.2 with
          | [] => .ok (pr.1, false, "")
          | r :: _ => .ok (pr.1, true, Nat.repr r.primary_key)

/-- The pagination-scenario table contents, the 2500-key scenario downscaled
by a factor of 100 so that it stays evaluable: primary keys 1..25, each
row's payload the singleton list of its key, payer 7. -/

def c2kvs : List KV :=
  (List.range 25).map (fun i =>
    { t_id := 1, primary_key := i + 1, payer := 7, value := [i + 1] })

/-- The scenario table: id 1, owned by code account 100, scope 0, name 11. -/

def c2T : TableRow :=
  { id := 1, code := 100, scope := 0, table := 11, payer := 7, count := 25 }

/-- The scenario database. -/

def c2db : ContractDB := { tables := [c2T], kvIndex := c2kvs }

/-- The rows a scan emits for count consecutive keys from start on the
scenario table. -/

def rowsRange (start count : Nat) : List (List Nat × Nat) :=
  (List.range count).map (fun i => ([start + i], 7))

/-- A small 3-row table (keys 1, 2, 3) for the deadline-abort scenario. -/

def c2small : ContractDB :=
  { tables := [c2T],
    kvIndex := [{ t_id := 1, primary_key := 1, payer := 7, value := [1] },
                { t_id := 1, primary_key := 2, payer := 7, value := [2] },
                { t_id := 1, primary_key := 3, payer := 7, value := [3] }] }

/-! ## Theorems -/

theorem countP_map_pred {α : Type} (l : List α) (g : α → α) (q : α → Bool)
    (hg : ∀ r, q (g r) = q r) : (l.map g).countP q = l.countP q := by
  induction l with
  | nil => rfl
  | cons x xs ih => simp [List.countP_cons, hg, ih]

theorem countP_eraseP_lt {α : Type} (l : List α) (q : α → Bool)
    (h : l.countP q ≠ 0) : (l.eraseP q).countP q < l.countP q := by
  induction l with
  | nil => simp at h
  | cons x xs ih =>
    by_cases hx : q x = true
    · rw [List.eraseP_cons_of_pos hx]
      simp [List.countP_cons, hx]
    · have hxf : q x = false := by simpa using hx
      rw [List.eraseP_cons_of_neg hx]
      simp only [List.countP_cons, hxf] at h ⊢
      simpa using ih (by simpa using h)

theorem filter_eraseP_self {α : Type} (l : List α) (q : α → Bool) :
    (l.eraseP q).filter q = (l.filter q).tail := by
  induction l with
  | nil => rfl
  | cons x xs ih =>
    by_cases hx : q x = true
    · rw [List.eraseP_cons_of_pos hx, List.filter_cons_of_pos hx]
      rfl
    · rw [List.eraseP_cons_of_neg hx]
      have hxf : q x = false := by simpa using hx
      rw [List.filter_cons_of_neg (by simp [hxf]), List.filter_cons_of_neg (by simp [hxf]), ih]

theorem filter_map_id_on {α : Type} (l : List α) (q : α → Bool) (g : α → α)
    (hq : ∀ r, q (g r) = q r) (hid : ∀ r, q r = true → g r = r) :
    (l.map g).filter q = l.filter q := by
  induction l with
  | nil => rfl
  | cons x xs ih =>
    by_cases hx : q x = true
    · rw [List.map_cons, List.filter_cons_of_pos (by rw [hq]; exact hx),
        List.filter_cons_of_pos hx, hid x hx, ih]
    · rw [List.map_cons, List.filter_cons_of_neg (by rw [hq]; exact hx),
        List.filter_cons_of_neg hx, ih]

theorem filter_head_of_find? {α : Type} (l : List α) (q : α → Bool) (a : α)
    (h : l.find? q = some a) : l.filter q = a :: (l.eraseP q).filter q := by
  induction l with
  | nil => cases h
  | cons x xs ih =>
    by_cases hx : q x = true
    · rw [List.find?_cons_of_pos _ hx] at h
      cases h
      rw [List.filter_cons_of_pos hx, List.eraseP_cons_of_pos hx]
    · rw [List.find?_cons_of_neg _ hx] at h
      rw [List.filter_cons_of_neg hx, List.eraseP_cons_of_neg hx,
        List.filter_cons_of_neg hx, ih h]

theorem find?_eraseP_disjoint {α : Type} (l : List α) (q pr : α → Bool)
    (hd : ∀ x, q x = true → pr x = false) :
    (l.eraseP q).find? pr = l.find? pr := by
  induction l with
  | nil => rfl
  | cons x xs ih =>
    by_cases hqx : q x = true
    · rw [List.eraseP_cons_of_pos hqx, List.find?_cons_of_neg _ (by simp [hd x hqx])]
    · rw [List.eraseP_cons_of_neg hqx]
      by_cases hpx : pr x = true
      · rw [List.find?_cons_of_pos _ hpx, List.find?_cons_of_pos _ hpx]
      · rw [List.find?_cons_of_neg _ hpx, List.find?_cons_of_neg _ hpx, ih]

theorem countP_eq_zero_find? {α : Type} (l : List α) (q : α → Bool)
    (h : l.countP q = 0) : l.find? q = none := by
  induction l with
  | nil => rfl
  | cons x xs ih =>
    rw [List.countP_cons] at h
    by_cases hx : q x = true
    · simp [hx] at h
    · rw [List.find?_cons_of_neg _ hx]
      have hxf : q x = false := by simpa using hx
      rw [hxf] at h
      simp only [Bool.false_eq_true, if_false, add_zero] at h
      exact ih h

theorem update_state_and_value_ok (total : Nat) (v pv : Int) (t2 : Nat) (v2 : Int)
    (h : update_state_and_value total v pv = .ok (t2, v2)) :
    (t2 : Int) = (total : Int) - posPart v + posPart pv ∧ v2 = pv := by
  unfold update_state_and_value at h
  by_cases h1 : 0 < v ∧ ¬ (v.toNat ≤ total)
  · rw [if_pos h1] at h
    cases h
  · rw [if_neg h1] at h
    by_cases h2 : 0 < pv ∧ ¬ (pv.toNat ≤ UINT64_MAX - (if 0 < v then total - v.toNat else total))
    · rw [if_pos h2] at h
      cases h
    · rw [if_neg h2] at h
      cases h
      refine ⟨?_, rfl⟩
      unfold posPart
      by_cases hv : 0 < v
      · have hle : v.toNat ≤ total := by
          by_contra hc
          exact h1 ⟨hv, hc⟩
        by_cases hp : 0 < pv
        · rw [if_pos hv, if_pos hp, if_pos hv, if_pos hp]
          omega
        · rw [if_pos hv, if_neg hp, if_pos hv, if_neg hp]
          omega
      · by_cases hp : 0 < pv
        · rw [if_neg hv, if_pos hp, if_neg hv, if_pos hp]
          omega
        · rw [if_neg hv, if_neg hp, if_neg hv, if_neg hp]
          omega

theorem countP_key_le_one (l : List ResourceLimitsRow) (hnd : keysNodup l)
    (b : Bool) (o : Nat) :
    l.countP (fun r => r.pending == b && r.owner == o) ≤ 1 := by
  induction l with
  | nil => simp
  | cons x xs ih =>
    unfold keysNodup at hnd
    rw [List.map_cons, List.nodup_cons] at hnd
    rw [List.countP_cons]
    by_cases hx : (x.pending == b && x.owner == o) = true
    · have hzero : xs.countP (fun r => r.pending == b && r.owner == o) = 0 := by
        rw [List.countP_eq_zero]
        intro y hy hqy
        apply hnd.1
        simp only [Bool.and_eq_true, beq_iff_eq] at hx hqy
        have : (y.pending, y.owner) = (x.pending, x.owner) := by
          rw [hx.1, hx.2, hqy.1, hqy.2]
        rw [← this]
        exact List.mem_map_of_mem _ hy
      rw [hzero, hx]
      simp
    · have hxf : (x.pending == b && x.owner == o) = false := by simpa using hx
      rw [hxf]
      simp only [Bool.false_eq_true, if_false, add_zero]
      exact ih hnd.2

theorem countP_sub_eraseP {α : Type} (l : List α) (q qk : α → Bool) (e : α)
    (hf : l.find? q = some e) (hqe : qk e = true)
    (himp : ∀ x, qk x = true → q x = true) :
    (l.eraseP q).countP qk + 1 = l.countP qk := by
  induction l with
  | nil => cases hf
  | cons x xs ih =>
    by_cases hqx : q x = true
    · rw [List.find?_cons_of_pos _ hqx] at hf
      cases hf
      rw [List.eraseP_cons_of_pos hqx, List.countP_cons, hqe]
      simp
    · rw [List.find?_cons_of_neg _ hqx] at hf
      have hqkx : qk x = false := by
        by_contra hc
        exact hqx (himp x (by simpa using hc))
      rw [List.eraseP_cons_of_neg hqx, List.countP_cons, List.countP_cons, hqkx]
      simp only [Bool.false_eq_true, if_false, add_zero]
      exact ih hf

theorem mem_eraseP_of_ne_find? {α : Type} (l : List α) (q : α → Bool) (e x : α)
    (hf : l.find? q = some e) (hx : x ∈ l) (hne : x ≠ e) : x ∈ l.eraseP q := by
  induction l with
  | nil => cases hf
  | cons y ys ih =>
    by_cases hqy : q y = true
    · rw [List.find?_cons_of_pos _ hqy] at hf
      cases hf
      rw [List.eraseP_cons_of_pos hqy]
      rcases List.mem_cons.mp hx with h | h
      · exact absurd h hne
      · exact h
    · rw [List.find?_cons_of_neg _ hqy] at hf
      rw [List.eraseP_cons_of_neg hqy]
      rcases List.mem_cons.mp hx with h | h
      · exact List.mem_cons.mpr (Or.inl h)
      · exact List.mem_cons.mpr (Or.inr (ih hf h))

theorem find?_map_eq {α : Type} (l : List α) (p : α → Bool) (g : α → α)
    (hg : ∀ r, p (g r) = p r) : (l.map g).find? p = (l.find? p).map g := by
  induction l with
  | nil => rfl
  | cons x xs ih =>
    by_cases h : p x = true
    · simp [List.find?_cons, hg, h]
    · simp only [Bool.not_eq_true] at h
      simp [List.find?_cons, hg, h, ih]

theorem findActive_step (limits : List ResourceLimitsRow)
    (g : ResourceLimitsRow → ResourceLimitsRow) (o oitr : Nat) (ho : o ≠ oitr)
    (hgkey : ∀ r, (g r).pending = r.pending ∧ (g r).owner = r.owner)
    (hgact : ∀ r, r.owner ≠ oitr → g r = r) :
    ((limits.map g).eraseP (fun r => r.pending)).find?
        (fun r => r.pending == false && r.owner == o) =
      limits.find? (fun r => r.pending == false && r.owner == o) := by
  rw [find?_eraseP_disjoint _ _ _ (fun x hx => by simp [hx])]
  rw [find?_map_eq _ _ g (fun r => by rw [(hgkey r).1, (hgkey r).2])]
  cases hfo : limits.find? (fun r => r.pending == false && r.owner == o) with
  | none => rfl
  | some a =>
    have hprop := List.find?_some hfo
    simp only [Bool.and_eq_true, beq_iff_eq] at hprop
    have : g a = a := hgact a (by rw [hprop.2]; exact ho)
    simp [this]

theorem rest_owner_ne (limits : List ResourceLimitsRow) (itr : ResourceLimitsRow)
    (hnd : keysNodup limits)
    (hfp : limits.find? (fun r => r.pending) = some itr) :
    ∀ p ∈ (limits.eraseP (fun r => r.pending)).filter (fun r => r.pending),
      p.owner ≠ itr.owner := by
  intro p hp
  have hndf : keysNodup (limits.filter (fun r => r.pending)) :=
    List.Nodup.sublist (List.Sublist.map _ (List.filter_sublist _)) hnd
  rw [filter_head_of_find? _ _ _ hfp] at hndf
  unfold keysNodup at hndf
  rw [List.map_cons, List.nodup_cons] at hndf
  intro heq
  apply hndf.1
  have hpq : p.pending = true := by
    have := (List.mem_filter.mp hp).2
    simpa using this
  have hitrq : itr.pending = true := by
    have := List.find?_some hfp
    simpa using this
  have : (itr.pending, itr.owner) = (p.pending, p.owner) := by
    rw [hpq, hitrq, heq]
  rw [this]
  exact List.mem_map_of_mem _ hp

theorem oldContribution_step (limits : List ResourceLimitsRow)
    (itr a0 : ResourceLimitsRow) (g : ResourceLimitsRow → ResourceLimitsRow)
    (f : ResourceLimitsRow → Int)
    (hfp : limits.find? (fun r => r.pending) = some itr)
    (hfa : limits.find? (fun r => r.pending == false && r.owner == itr.owner) = some a0)
    (hnd : keysNodup limits)
    (hgkey : ∀ r, (g r).pending = r.pending ∧ (g r).owner = r.owner)
    (hgid : ∀ r, r.pending = true → g r = r)
    (hgact : ∀ r, r.owner ≠ itr.owner → g r = r) :
    oldContribution ((limits.map g).eraseP (fun r => r.pending)) f
      = oldContribution limits f - posPart (f a0) := by
  unfold oldContribution
  have hfilter2 : ((limits.map g).eraseP (fun r => r.pending)).filter (fun r => r.pending)
      = (limits.filter (fun r => r.pending)).tail := by
    rw [filter_eraseP_self,
      filter_map_id_on _ _ g (fun r => (hgkey r).1) (fun r h => hgid r h)]
  have hhead := filter_head_of_find? _ _ _ hfp
  rw [hfilter2, hhead, List.tail_cons, List.map_cons, List.sum_cons, hfa]
  have hcongr :
      ((limits.eraseP (fun r => r.pending)).filter (fun r => r.pending)).map (fun p =>
        ((((limits.map g).eraseP (fun r => r.pending)).find?
          (fun r => r.pending == false && r.owner == p.owner)).map
            (fun a => posPart (f a))).getD 0) =
      ((limits.eraseP (fun r => r.pending)).filter (fun r => r.pending)).map (fun p =>
        ((limits.find? (fun r => r.pending == false && r.owner == p.owner)).map
          (fun a => posPart (f a))).getD 0) := by
    apply List.map_congr_left
    intro p hp
    rw [findActive_step limits g p.owner itr.owner (rest_owner_ne limits itr hnd hfp p hp)
      hgkey hgact]
  rw [hcongr]
  simp only [Option.map_some', Option.getD_some]
  omega

theorem newContribution_step (limits : List ResourceLimitsRow)
    (itr : ResourceLimitsRow) (g : ResourceLimitsRow → ResourceLimitsRow)
    (f : ResourceLimitsRow → Int)
    (hfp : limits.find? (fun r => r.pending) = some itr)
    (hgkey : ∀ r, (g r).pending = r.pending ∧ (g r).owner = r.owner)
    (hgid : ∀ r, r.pending = true → g r = r) :
    newContribution ((limits.map g).eraseP (fun r => r.pending)) f
      = newContribution limits f - posPart (f itr) := by
  unfold newContribution
  have hfilter2 : ((limits.map g).eraseP (fun r => r.pending)).filter (fun r => r.pending)
      = (limits.filter (fun r => r.pending)).tail := by
    rw [filter_eraseP_self,
      filter_map_id_on _ _ g (fun r => (hgkey r).1) (fun r h => hgid r h)]
  rw [hfilter2, filter_head_of_find? _ _ _ hfp, List.tail_cons, List.map_cons,
    List.sum_cons]
  omega

theorem process_loop_spec_step (fuel : Nat)
    (ih : ∀ (limits : List ResourceLimitsRow) (rso : ResourceLimitsState)
        (l2 : List ResourceLimitsRow) (rs2 : ResourceLimitsState),
        limits.countP (fun r => r.pending) ≤ fuel → keysNodup limits →
        process_loop fuel limits rso = .ok (l2, rs2) → LoopSpec limits rso l2 rs2)
    (limits : List ResourceLimitsRow) (rso : ResourceLimitsState)
    (l2 : List ResourceLimitsRow) (rs2 : ResourceLimitsState)
    (hcount : limits.countP (fun r => r.pending) ≤ fuel + 1)
    (hnd : keysNodup limits)
    (itr actual_entry : ResourceLimitsRow)
    (t_ram : Nat) (v_ram : Int) (t_cpu : Nat) (v_cpu : Int) (t_net : Nat) (v_net : Int)
    (hfp : limits.find? (fun r => r.pending) = some itr)
    (hfa : limits.find? (fun r => r.pending == false && r.owner == itr.owner)
      = some actual_entry)
    (hram : update_state_and_value rso.total_ram_bytes actual_entry.ram_bytes
      itr.ram_bytes = .ok (t_ram, v_ram))
    (hcpu : update_state_and_value rso.total_cpu_weight actual_entry.cpu_weight
      itr.cpu_weight = .ok (t_cpu, v_cpu))
    (hnet : update_state_and_value rso.total_net_weight actual_entry.net_weight
      itr.net_weight = .ok (t_net, v_net))
    (hok : process_loop fuel
      ((limits.map (fun r =>
        if r.pending == false && r.owner == itr.owner then
          { r with ram_bytes := v_ram, cpu_weight := v_cpu, net_weight := v_net }
        else r)).eraseP (fun r => r.pending))
      { rso with total_ram_bytes := t_ram, total_cpu_weight := t_cpu,
                 total_net_weight := t_net } = .ok (l2, rs2)) :
    LoopSpec limits rso l2 rs2 := by
  set g : ResourceLimitsRow → ResourceLimitsRow := fun r =>
    if r.pending == false && r.owner == itr.owner then
      { r with ram_bytes := v_ram, cpu_weight := v_cpu, net_weight := v_net }
    else r with hgdef
  have hgkey : ∀ r, (g r).pending = r.pending ∧ (g r).owner = r.owner := by
    intro r
    simp only [hgdef]
    by_cases hc : (r.pending == false && r.owner == itr.owner) = true
    · rw [if_pos hc]
      exact ⟨rfl, rfl⟩
    · rw [if_neg hc]
      exact ⟨rfl, rfl⟩
  have hgid : ∀ r, r.pending = true → g r = r := by
    intro r hr
    simp only [hgdef]
    rw [if_neg (by simp [hr])]
  have hgact : ∀ r, r.owner ≠ itr.owner → g r = r := by
    intro r hr
    simp only [hgdef]
    rw [if_neg (by simp [hr])]
  have hitr_mem : itr ∈ limits := List.mem_of_find?_eq_some hfp
  have hitr_p : itr.pending = true := by simpa using List.find?_some hfp
  have ha0_mem : actual_entry ∈ limits := List.mem_of_find?_eq_some hfa
  have ha0_props : actual_entry.pending = false ∧ actual_entry.owner = itr.owner := by
    simpa using List.find?_some hfa
  have hndU : (limits.map (fun r => (r.pending, r.owner))).Nodup := hnd
  have hinj := List.inj_on_of_nodup_map hndU
  -- the mapped index keeps the same keys
  have hkeysmap : (limits.map g).map (fun r => (r.pending, r.owner))
      = limits.map (fun r => (r.pending, r.owner)) := by
    rw [List.map_map]
    apply List.map_congr_left
    intro r _
    show ((g r).pending, (g r).owner) = (r.pending, r.owner)
    rw [(hgkey r).1, (hgkey r).2]
  have hnd2 : keysNodup ((limits.map g).eraseP (fun r => r.pending)) := by
    unfold keysNodup
    apply List.Nodup.sublist (List.Sublist.map _ (List.eraseP_sublist _))
    rw [hkeysmap]
    exact hnd
  -- the first pending row of the mapped index is still itr
  have hfindmap : (limits.map g).find? (fun r => r.pending) = some itr := by
    rw [find?_map_eq _ _ g (fun r => by rw [(hgkey r).1]), hfp]
    simp [hgid itr hitr_p]
  -- the count strictly decreases
  have hcmap : (limits.map g).countP (fun r => r.pending)
      = limits.countP (fun r => r.pending) :=
    countP_map_pred _ _ _ (fun r => by rw [(hgkey r).1])
  have hsub := countP_sub_eraseP (limits.map g) (fun r => r.pending)
    (fun r => r.pending) itr hfindmap hitr_p (fun x hx => hx)
  have hle2 : ((limits.map g).eraseP (fun r => r.pending)).countP (fun r => r.pending)
      ≤ fuel := by omega
  have spec2 := ih _ _ l2 rs2 hle2 hnd2 hok
  obtain ⟨G1, G2, G3, T1, T2, T3, V1, V2, V3, V4⟩ := spec2
  -- a pending row of the processed index was already a pending row before
  have hpendback : ∀ p', p' ∈ (limits.map g).eraseP (fun r => r.pending) →
      p'.pending = true → p' ∈ limits := by
    intro p' hp' hp'p
    have hp'map : p' ∈ limits.map g := List.mem_of_mem_eraseP hp'
    obtain ⟨r, hr, hgr⟩ := List.mem_map.mp hp'map
    have hrp : r.pending = true := by
      rw [← (hgkey r).1, hgr]
      exact hp'p
    rw [← hgr, hgid r hrp]
    exact hr
  -- no pending row with the processed owner survives
  have hcnt0 : ((limits.map g).eraseP (fun r => r.pending)).countP
      (fun r => r.pending == true && r.owner == itr.owner) = 0 := by
    have h1 := countP_sub_eraseP (limits.map g) (fun r => r.pending)
      (fun r => r.pending == true && r.owner == itr.owner) itr hfindmap
      (by simp [hitr_p]) (fun x hx => by
        simp only [Bool.and_eq_true, beq_iff_eq] at hx
        simp [hx.1])
    have h2 : (limits.map g).countP (fun r => r.pending == true && r.owner == itr.owner)
        = limits.countP (fun r => r.pending == true && r.owner == itr.owner) :=
      countP_map_pred _ _ _ (fun r => by rw [(hgkey r).1, (hgkey r).2])
    have h3 := countP_key_le_one limits hnd true itr.owner
    omega
  have husvr := update_state_and_value_ok _ _ _ _ _ hram
  have husvc := update_state_and_value_ok _ _ _ _ _ hcpu
  have husvn := update_state_and_value_ok _ _ _ _ _ hnet
  refine ⟨G1, ?_, ?_, ?_, ?_, ?_, V1, V2, V3, V4⟩
  · -- actives without a pending counterpart survive
    intro a ha hap hnop
    have hao : a.owner ≠ itr.owner := fun he => hnop itr hitr_mem hitr_p he.symm
    have hga : g a = a := hgact a hao
    have hmem1 : a ∈ limits.map g := by
      rw [← hga]
      exact List.mem_map_of_mem g ha
    have hmem2 : a ∈ (limits.map g).eraseP (fun r => r.pending) :=
      (List.mem_eraseP_of_neg (by simp [hap])).mpr hmem1
    apply G2 a hmem2 hap
    intro p' hp' hp'p
    exact hnop p' (hpendback p' hp' hp'p) hp'p
  · -- every pending row is folded into its active row
    intro p hp hpt a ha hap haeq
    by_cases hcase : p.owner = itr.owner
    · have hpitr : p = itr := hinj hp hitr_mem (by rw [hpt, hitr_p, hcase])
      have haa0 : a = actual_entry := hinj ha ha0_mem (by
        rw [hap, ha0_props.1, haeq, hcase, ha0_props.2])
      subst hpitr
      subst haa0
      have hcond : (a.pending == false && a.owner == p.owner) = true := by
        simp [hap, haeq]
      have hu : g a =
          { a with
            ram_bytes := v_ram, cpu_weight := v_cpu, net_weight := v_net } := by
        simp only [hgdef]
        rw [if_pos hcond]
      have hgoal :
          { a with
            ram_bytes := p.ram_bytes, cpu_weight := p.cpu_weight,
            net_weight := p.net_weight } = g a := by
        rw [hu, husvr.2, husvc.2, husvn.2]
      rw [hgoal]
      have humem : g a ∈ limits.map g := List.mem_map_of_mem g ha
      have hup : (g a).pending = false := by rw [(hgkey a).1, hap]
      have humem2 : g a ∈ (limits.map g).eraseP (fun r => r.pending) :=
        (List.mem_eraseP_of_neg (by simp [hup])).mpr humem
      apply G2 (g a) humem2 hup
      intro p' hp' hp'p
      intro howner
      have hpo : p'.owner = p.owner := by rw [howner, (hgkey a).2, haeq]
      have hqk : (p'.pending == true && p'.owner == p.owner) = true := by
        simp [hp'p, hpo]
      have hzero := List.countP_eq_zero.mp hcnt0 p' hp'
      exact absurd hqk (by simpa using hzero)
    · have hane : a.owner ≠ itr.owner := by rw [haeq]; exact hcase
      have hpne : p ≠ itr := fun he => hcase (by rw [he])
      have hga : g a = a := hgact a hane
      have hgp : g p = p := hgid p hpt
      have hpmem2 : p ∈ (limits.map g).eraseP (fun r => r.pending) :=
        mem_eraseP_of_ne_find? (limits.map g) _ itr p hfindmap
          (by rw [← hgp]; exact List.mem_map_of_mem g hp) hpne
      have hamem2 : a ∈ (limits.map g).eraseP (fun r => r.pending) :=
        (List.mem_eraseP_of_neg (by simp [hap])).mpr
          (by rw [← hga]; exact List.mem_map_of_mem g ha)
      exact G3 p hpmem2 hpt a hamem2 hap haeq
  · -- ram total
    have hoc := oldContribution_step limits itr actual_entry g
      (fun r => r.ram_bytes) hfp hfa hnd hgkey hgid hgact
    have hnc := newContribution_step limits itr g (fun r => r.ram_bytes) hfp hgkey hgid
    rw [hoc, hnc] at T1
    have := husvr.1
    simp only at T1
    omega
  · -- cpu total
    have hoc := oldContribution_step limits itr actual_entry g
      (fun r => r.cpu_weight) hfp hfa hnd hgkey hgid hgact
    have hnc := newContribution_step limits itr g (fun r => r.cpu_weight) hfp hgkey hgid
    rw [hoc, hnc] at T2
    have := husvc.1
    simp only at T2
    omega
  · -- net total
    have hoc := oldContribution_step limits itr actual_entry g
      (fun r => r.net_weight) hfp hfa hnd hgkey hgid hgact
    have hnc := newContribution_step limits itr g (fun r => r.net_weight) hfp hgkey hgid
    rw [hoc, hnc] at T3
    have := husvn.1
    simp only at T3
    omega

theorem LoopSpec_refl (limits : List ResourceLimitsRow) (rso : ResourceLimitsState)
    (hallnot : ∀ x ∈ limits, ¬ (x.pending = true)) : LoopSpec limits rso limits rso := by
  have hfe : limits.filter (fun r => r.pending) = [] := by
    rw [List.filter_eq_nil]
    intro a ha
    simpa using hallnot a ha
  have hold : ∀ f, oldContribution limits f = 0 := by
    intro f
    unfold oldContribution
    rw [hfe]
    rfl
  have hnew : ∀ f, newContribution limits f = 0 := by
    intro f
    unfold newContribution
    rw [hfe]
    rfl
  exact ⟨List.countP_eq_zero.mpr hallnot, fun a ha _ _ => ha,
    fun p hp hpt => absurd hpt (hallnot p hp),
    by rw [hold, hnew]; omega, by rw [hold, hnew]; omega, by rw [hold, hnew]; omega,
    rfl, rfl, rfl, rfl⟩

theorem process_loop_spec :
    ∀ (fuel : Nat) (limits : List ResourceLimitsRow) (rso : ResourceLimitsState)
      (l2 : List ResourceLimitsRow) (rs2 : ResourceLimitsState),
      limits.countP (fun r => r.pending) ≤ fuel →
      keysNodup limits →
      process_loop fuel limits rso = .ok (l2, rs2) →
      LoopSpec limits rso l2 rs2 := by
  intro fuel
  induction fuel with
  | zero =>
    intro limits rso l2 rs2 hcount hnd hok
    simp only [process_loop] at hok
    rw [Except.ok.injEq, Prod.mk.injEq] at hok
    obtain ⟨h1, h2⟩ := hok
    subst h1
    subst h2
    have hcz : limits.countP (fun r => r.pending) = 0 := Nat.le_zero.mp hcount
    refine LoopSpec_refl limits rso ?_
    intro x hx
    have := List.countP_eq_zero.mp hcz x hx
    simpa using this
  | succ fuel ih =>
    intro limits rso l2 rs2 hcount hnd hok
    simp only [process_loop] at hok
    split at hok
    case _ hfp =>
      rw [Except.ok.injEq, Prod.mk.injEq] at hok
      obtain ⟨h1, h2⟩ := hok
      subst h1
      subst h2
      refine LoopSpec_refl limits rso ?_
      intro x hx
      have := List.find?_eq_none.mp hfp x hx
      simpa using this
    case _ itr hfp =>
      split at hok
      case _ hfa => cases hok
      case _ actual_entry hfa =>
        split at hok
        case _ e hram => cases hok
        case _ t_ram v_ram hram =>
          split at hok
          case _ e hcpu => cases hok
          case _ t_cpu v_cpu hcpu =>
            split at hok
            case _ e hnet => cases hok
            case _ t_net v_net hnet =>
              exact process_loop_spec_step fuel ih limits rso l2 rs2 hcount hnd itr
                actual_entry t_ram v_ram t_cpu v_cpu t_net v_net hfp hfa hram hcpu hnet hok

/-- Claim C6: process_account_limit_updates folds every pending row into the
corresponding active row and updates the three global running totals by a
guarded subtract-then-add (subtracting the old active value only when
positive, asserting no underflow; adding the new pending value only when
positive, asserting no 64-bit overflow; failing with
rate_limiting_state_inconsistent on violation), then deletes all pending
rows; with no pending rows (and hence on a second consecutive call) it
leaves everything unchanged. -/

theorem claim_C6 :
    (∀ (total : Nat) (v pv : Int),
        (0 < v → total < v.toNat →
          update_state_and_value total v pv = .error .rateLimitingStateInconsistent) ∧
        (¬ (0 < v ∧ total < v.toNat) → 0 < pv →
          UINT64_MAX - (if 0 < v then total - v.toNat else total) < pv.toNat →
          update_state_and_value total v pv = .error .rateLimitingStateInconsistent) ∧
        (∀ (t2 : Nat) (v2 : Int), update_state_and_value total v pv = .ok (t2, v2) →
          (t2 : Int) = (total : Int) - posPart v + posPart pv ∧ v2 = pv))
  ∧ (∀ db : ResDB, db.limits.find? (fun r => r.pending) = none →
        process_account_limit_updates db = .ok db)
  ∧ (∀ (db db2 : ResDB), keysNodup db.limits →
        process_account_limit_updates db = .ok db2 →
        LoopSpec db.limits db.state db2.limits db2.state ∧
        db2.usage = db.usage ∧ db2.config = db.config ∧
        process_account_limit_updates db2 = .ok db2) := by
  have hnopending : ∀ db : ResDB, db.limits.countP (fun r => r.pending) = 0 →
      process_account_limit_updates db = .ok db := by
    intro db hcz
    unfold process_account_limit_updates
    rw [hcz]
    simp only [process_loop]
  refine ⟨?_, ?_, ?_⟩
  · intro total v pv
    refine ⟨?_, ?_, fun t2 v2 h => update_state_and_value_ok total v pv t2 v2 h⟩
    · intro h1 h2
      unfold update_state_and_value
      rw [if_pos ⟨h1, by omega⟩]
    · intro hn h1 h2
      simp only [update_state_and_value]
      rw [if_neg (fun hc => hn ⟨hc.1, by omega⟩), if_pos ⟨h1, by omega⟩]
  · intro db hnone
    apply hnopending
    rw [List.countP_eq_zero]
    intro a ha
    have := List.find?_eq_none.mp hnone a ha
    simpa using this
  · intro db db2 hnd hok
    unfold process_account_limit_updates at hok
    cases hloop : process_loop (db.limits.countP (fun r => r.pending)) db.limits db.state with
    | error e =>
      rw [hloop] at hok
      cases hok
    | ok pair =>
      obtain ⟨l2, rs2⟩ := pair
      rw [hloop] at hok
      rw [Except.ok.injEq] at hok
      subst hok
      have spec := process_loop_spec _ db.limits db.state l2 rs2 (Nat.le_refl _) hnd hloop
      refine ⟨spec, rfl, rfl, ?_⟩
      exact hnopending _ spec.1

theorem claim_C6_witness :
    update_state_and_value 5 10 3 = .error .rateLimitingStateInconsistent ∧
    (∀ (t2 : Nat) (v2 : Int), update_state_and_value 100 10 1 = .ok (t2, v2) →
      (t2 : Int) = 100 - posPart 10 + posPart 1 ∧ v2 = 1) ∧
    process_account_limit_updates c6db2 = .ok c6db2 ∧
    process_account_limit_updates c6db = .ok c6db2 ∧
    LoopSpec c6db.limits c6db.state c6db2.limits c6db2.state := by
  have hok : process_account_limit_updates c6db = .ok c6db2 := by rfl
  have h3 := claim_C6.2.2 c6db c6db2 (by unfold keysNodup; decide) hok
  exact ⟨(claim_C6.1 5 10 3).1 (by decide) (by decide),
    (claim_C6.1 100 10 1).2.2,
    h3.2.2.2, hok, h3.1⟩

/-- Claim C7: update_elastic_limit multiplies the current limit by the
contract rate exactly when the trailing average usage exceeds the target
(else by the expand rate) and clamps the product into
[max, max * max_multiplier]; in particular, whenever that interval is
meaningful (max_multiplier positive and the uint64 product not
overflowing), the result is never below max and never above
max * max_multiplier. -/

theorem claim_C7 :
    ∀ (current_limit average_usage : Nat) (params : ElasticLimitParameters),
      0 < params.max_multiplier →
      params.max * params.max_multiplier < U64 →
      update_elastic_limit current_limit average_usage params =
        min (max (if params.target < average_usage
                  then mulRatio current_limit params.contract_rate
                  else mulRatio current_limit params.expand_rate)
             params.max)
          (params.max * params.max_multiplier) ∧
      params.max ≤ update_elastic_limit current_limit average_usage params ∧
      update_elastic_limit current_limit average_usage params ≤
        params.max * params.max_multiplier := by
  intro cur avg params hm hov
  simp only [update_elastic_limit]
  have hmod : params.max * params.max_multiplier % U64 = params.max * params.max_multiplier :=
    Nat.mod_eq_of_lt hov
  rw [hmod]
  have hle : params.max ≤ params.max * params.max_multiplier :=
    Nat.le_mul_of_pos_right _ hm
  exact ⟨rfl, le_min (le_max_right _ _) hle, min_le_right _ _⟩

theorem claim_C7_witness :
    100 ≤ update_elastic_limit 200 50 c7params ∧
    update_elastic_limit 200 50 c7params ≤ 500 ∧
    update_elastic_limit 200 50 c7params = 198 := by
  have h := claim_C7 200 50 c7params (by decide) (by decide)
  exact ⟨h.2.1, h.2.2, by decide⟩

theorem remove_permission_error_of_child (db : PermDB) (P c : PermissionRow)
    (hc : c ∈ db.permissions) (hcp : c.parent = P.id) :
    remove_permission db P = .error .actionValidateException := by
  unfold remove_permission
  have hcmem : c ∈ db.permissions.filter (fun r => r.parent == P.id) :=
    List.mem_filter.mpr ⟨hc, by simp [hcp]⟩
  rw [if_neg ?_]
  intro he
  rw [List.isEmpty_iff] at he
  rw [he] at hcmem
  cases hcmem

theorem remove_permission_ok_of_no_child (db : PermDB) (P : PermissionRow)
    (hnone : ∀ c ∈ db.permissions, c.parent ≠ P.id) :
    remove_permission db P = .ok { db with
      usages := db.usages.eraseP (fun u => u.id == P.usage_id),
      permissions := db.permissions.eraseP (fun r => r.id == P.id) } := by
  unfold remove_permission
  have hemp : db.permissions.filter (fun r => r.parent == P.id) = [] := by
    rw [List.filter_eq_nil]
    intro c hc
    simp [hnone c hc]
  rw [if_pos (by rw [hemp]; rfl)]

/-- Claim C8: remove_permission fails with action_validate_exception as soon
as some permission names the removed one as parent (so the row and its usage
row stay untouched, the exception aborting before any deletion); with no
such child it deletes the PermissionUsage row and then the Permission row.
Consequently, creating B with parent A and then deleting A fails with the
has-children error, while deleting B first and then A succeeds. -/

theorem claim_C8 :
    (∀ (db : PermDB) (P c : PermissionRow), c ∈ db.permissions → c.parent = P.id →
        remove_permission db P = .error .actionValidateException)
  ∧ (∀ (db : PermDB) (P : PermissionRow),
        (∀ c ∈ db.permissions, c.parent ≠ P.id) →
        ∃ db2, remove_permission db P = .ok db2 ∧
          db2.usages = db.usages.eraseP (fun u => u.id == P.usage_id) ∧
          db2.permissions = db.permissions.eraseP (fun r => r.id == P.id))
  ∧ (∀ (db db1 : PermDB) (A B : PermissionRow) (bacct bname : Nat)
        (auth : Authority) (t : Nat),
        A ∈ db.permissions →
        (∀ c ∈ db.permissions, c.parent ≠ A.id) →
        (∀ c ∈ db.permissions, c.id < db.next_permission_id) →
        (∀ c ∈ db.permissions, c.parent < db.next_permission_id) →
        create_permission db bacct bname A.id auth t = .ok (db1, B) →
        remove_permission db1 A = .error .actionValidateException ∧
        ∃ db2, remove_permission db1 B = .ok db2 ∧
          db2.permissions = db.permissions ∧
          ∃ db3, remove_permission db2 A = .ok db3) := by
  refine ⟨fun db P c hc hcp => remove_permission_error_of_child db P c hc hcp,
    fun db P hnone => ⟨_, remove_permission_ok_of_no_child db P hnone, rfl, rfl⟩, ?_⟩
  intro db db1 A B bacct bname auth t hA hnochild hidlt hparlt hok
  unfold create_permission at hok
  by_cases hkeys : auth.keys.all (fun k => k.1 < db.num_supported_key_types) = true
  · rw [if_pos hkeys] at hok
    rw [Except.ok.injEq, Prod.mk.injEq] at hok
    obtain ⟨hdb1, hB⟩ := hok
    subst hdb1
    subst hB
    have hAltnext : A.id < db.next_permission_id := hidlt A hA
    constructor
    · exact remove_permission_error_of_child _ A
        { id := db.next_permission_id, usage_id := db.next_usage_id, parent := A.id,
          owner := bacct, perm_name := bname, last_updated := t, auth := auth }
        (by simp) rfl
    · have hnoneB : ∀ c ∈ db.permissions ++
          [{ id := db.next_permission_id, usage_id := db.next_usage_id,
             parent := A.id, owner := bacct, perm_name := bname,
             last_updated := t, auth := auth }],
          c.parent ≠ db.next_permission_id := by
        intro c hc
        rcases List.mem_append.mp hc with h | h
        · have := hparlt c h
          omega
        · rw [List.mem_singleton.mp h]
          simp only []
          omega
      have hok2 := remove_permission_ok_of_no_child
        { db with
          usages := db.usages ++ [{ id := db.next_usage_id, last_used := t }],
          permissions := db.permissions ++
            [{ id := db.next_permission_id, usage_id := db.next_usage_id,
               parent := A.id, owner := bacct, perm_name := bname,
               last_updated := t, auth := auth }],
          next_usage_id := db.next_usage_id + 1,
          next_permission_id := db.next_permission_id + 1 }
        { id := db.next_permission_id, usage_id := db.next_usage_id, parent := A.id,
          owner := bacct, perm_name := bname, last_updated := t, auth := auth }
        hnoneB
      refine ⟨_, hok2, ?_, ?_⟩
      · show (db.permissions ++
            [({ id := db.next_permission_id, usage_id := db.next_usage_id,
                parent := A.id, owner := bacct, perm_name := bname,
                last_updated := t, auth := auth } : PermissionRow)]).eraseP
            (fun r => r.id == db.next_permission_id) = db.permissions
        rw [List.eraseP_append_right _ (fun x hx => by
          have := hidlt x hx
          simp only [beq_iff_eq]
          omega)]
        rw [List.eraseP_cons_of_pos (by simp)]
        simp
      · refine ⟨_, remove_permission_ok_of_no_child _ A ?_⟩
        intro c hc
        have hc2 : c ∈ (db.permissions ++
            [({ id := db.next_permission_id, usage_id := db.next_usage_id,
                parent := A.id, owner := bacct, perm_name := bname,
                last_updated := t, auth := auth } : PermissionRow)]).eraseP
            (fun r => r.id == db.next_permission_id) := hc
        rw [List.eraseP_append_right _ (fun x hx => by
          have := hidlt x hx
          simp only [beq_iff_eq]
          omega)] at hc2
        rw [List.eraseP_cons_of_pos (by simp)] at hc2
        rw [List.append_nil] at hc2
        exact hnochild c hc2
  · rw [if_neg hkeys] at hok
    cases hok

theorem claim_C8_witness :
    ∃ db1 B, create_permission c8db 7 12 c8A.id ⟨1, [], [], []⟩ 5 = .ok (db1, B) ∧
      remove_permission db1 c8A = .error .actionValidateException ∧
      ∃ db2, remove_permission db1 B = .ok db2 ∧
        db2.permissions = c8db.permissions ∧
        ∃ db3, remove_permission db2 c8A = .ok db3 := by
  have hcreate : ∃ db1 B, create_permission c8db 7 12 c8A.id ⟨1, [], [], []⟩ 5
      = .ok (db1, B) := ⟨_, _, rfl⟩
  obtain ⟨db1, B, hcreate⟩ := hcreate
  exact ⟨db1, B, hcreate,
    claim_C8.2.2 c8db db1 c8A B 7 12 ⟨1, [], [], []⟩ 5 (by decide) (by decide)
      (by decide) (by decide) hcreate⟩

theorem link_auth_reduce (db : LinkDB) (a c rn rt : Nat)
    (ha : a ∈ db.accounts) (hc : c ∈ db.accounts)
    (hperm : rn = any_name ∨
      (db.permissions.find? (fun p => p.1 == a && p.2 == rn)).isSome = true) :
    link_auth db a c rn rt = link_auth_update db a c rn rt := by
  unfold link_auth
  rw [if_neg (not_not_intro ha), if_neg (not_not_intro hc)]
  by_cases hrn : rn ≠ any_name
  · rw [if_pos hrn]
    rcases hperm with h | h
    · exact absurd h hrn
    · cases hfind : db.permissions.find? (fun p => p.1 == a && p.2 == rn) with
      | none =>
        rw [hfind] at h
        cases h
      | some q => simp only [hfind]
  · rw [if_neg hrn]

/-- Claim C9 (amended): re-linking an identical requirement is rejected with
action_validate_exception; linking to the wildcard any-name requirement
skips the permission-exists check entirely; creating a fresh link returns
the positive fixed per-row billable size, re-pointing an existing link to a
different requirement returns 0, and unlink_auth returns minus the fixed
billable size. -/

theorem claim_C9 :
    (∀ (db : LinkDB) (a c rn rt : Nat) (link : PermissionLinkRow),
        a ∈ db.accounts → c ∈ db.accounts →
        (rn = any_name ∨
          (db.permissions.find? (fun p => p.1 == a && p.2 == rn)).isSome = true) →
        db.links.find? (fun l => l.account == a && l.code == c &&
          l.message_type == rt) = some link →
        link.required_permission = rn →
        link_auth db a c rn rt = .error .actionValidateException)
  ∧ (∀ (db : LinkDB) (a c rt : Nat), a ∈ db.accounts → c ∈ db.accounts →
        link_auth db a c any_name rt = link_auth_update db a c any_name rt)
  ∧ (∀ (db : LinkDB) (a c rn rt : Nat),
        a ∈ db.accounts → c ∈ db.accounts →
        (rn = any_name ∨
          (db.permissions.find? (fun p => p.1 == a && p.2 == rn)).isSome = true) →
        db.links.find? (fun l => l.account == a && l.code == c &&
          l.message_type == rt) = none →
        link_auth db a c rn rt = .ok ((billable_size_permission_link_object : Int),
          { db with links := db.links ++
            [{ account := a, code := c, message_type := rt,
               required_permission := rn }] }) ∧
        0 < (billable_size_permission_link_object : Int))
  ∧ (∀ (db : LinkDB) (a c rn rt : Nat) (link : PermissionLinkRow),
        a ∈ db.accounts → c ∈ db.accounts →
        (rn = any_name ∨
          (db.permissions.find? (fun p => p.1 == a && p.2 == rn)).isSome = true) →
        db.links.find? (fun l => l.account == a && l.code == c &&
          l.message_type == rt) = some link →
        link.required_permission ≠ rn →
        ∃ db2, link_auth db a c rn rt = .ok (0, db2))
  ∧ (∀ (db : LinkDB) (a c rt : Nat) (link : PermissionLinkRow),
        db.links.find? (fun l => l.account == a && l.code == c &&
          l.message_type == rt) = some link →
        unlink_auth db a c rt = .ok (-(billable_size_permission_link_object : Int),
          { db with links := db.links.eraseP (fun l => l.account == a &&
              l.code == c && l.message_type == rt) }) ∧
        -(billable_size_permission_link_object : Int) < 0) := by
  refine ⟨?_, ?_, ?_, ?_, ?_⟩
  · intro db a c rn rt link ha hc hperm hlink hsame
    rw [link_auth_reduce db a c rn rt ha hc hperm]
    unfold link_auth_update
    simp only [hlink]
    rw [if_pos hsame]
  · intro db a c rt ha hc
    exact link_auth_reduce db a c any_name rt ha hc (Or.inl rfl)
  · intro db a c rn rt ha hc hperm hnone
    rw [link_auth_reduce db a c rn rt ha hc hperm]
    unfold link_auth_update
    simp only [hnone]
    exact ⟨trivial, by decide⟩
  · intro db a c rn rt link ha hc hperm hlink hne
    rw [link_auth_reduce db a c rn rt ha hc hperm]
    unfold link_auth_update
    simp only [hlink]
    rw [if_neg hne]
    exact ⟨_, rfl⟩
  · intro db a c rt link hlink
    unfold unlink_auth
    simp only [hlink]
    exact ⟨trivial, by decide⟩

/-- Counterexample to claim C9 as stated: re-pointing the existing link
(1,2,3) from requirement 4 to requirement 5 is "a link" that succeeds, yet
the returned RAM delta is 0, not the positive per-row billable size. -/

theorem claim_C9_counterexample :
    link_auth c9db 1 2 5 3 =
      .ok (0, { accounts := [1, 2], permissions := [(1, 4), (1, 5)],
                links := [{ account := 1, code := 2, message_type := 3,
                            required_permission := 5 }] }) ∧
    ¬ (0 < (0 : Int)) := ⟨by rfl, by decide⟩

theorem claim_C9_witness :
    link_auth c9db 1 2 4 3 = .error .actionValidateException ∧
    link_auth c9base 1 2 any_name 3 = link_auth_update c9base 1 2 any_name 3 ∧
    link_auth c9base 1 2 4 3 = .ok ((billable_size_permission_link_object : Int),
      { c9base with links := [{ account := 1, code := 2, message_type := 3,
                                required_permission := 4 }] }) ∧
    0 < (billable_size_permission_link_object : Int) ∧
    unlink_auth c9db 1 2 3 = .ok (-(billable_size_permission_link_object : Int),
      { c9db with links := [] }) ∧
    -(billable_size_permission_link_object : Int) < 0 := by
  have h3 := claim_C9.2.2.1 c9base 1 2 4 3 (by decide) (by decide)
    (Or.inr (by rfl)) (by rfl)
  have h5 := claim_C9.2.2.2.2 c9db 1 2 3
    { account := 1, code := 2, message_type := 3, required_permission := 4 } (by rfl)
  exact ⟨claim_C9.1 c9db 1 2 4 3
      { account := 1, code := 2, message_type := 3, required_permission := 4 }
      (by decide) (by decide) (Or.inr (by rfl)) (by rfl) rfl,
    claim_C9.2.1 c9base 1 2 3 (by decide) (by decide),
    h3.1, h3.2, h5.1, h5.2⟩

/-! ## Lemmas about the RAM counter -/

theorem findUsage_setUsage (db : ResDB) (a : Nat) (f : ResourceUsageRow → ResourceUsageRow)
    (hf : ∀ r, (f r).owner = r.owner) :
    (db.setUsage a f).findUsage a =
      (db.findUsage a).map (fun r => if r.owner == a then f r else r) := by
  unfold ResDB.setUsage ResDB.findUsage
  induction db.usage with
  | nil => rfl
  | cons r l ih =>
    by_cases h : r.owner = a
    · simp [List.find?_cons, h, hf]
    · simpa [List.find?_cons, h, hf] using ih

theorem except_bind_error {α β : Type} (e : Err) (g : α → Except Err β) :
    (Except.error e >>= g) = Except.error e := rfl

theorem except_bind_ok {α β : Type} (a : α) (g : α → Except Err β) :
    (Except.ok a >>= g) = g a := rfl

theorem add_pending_ram_usage_ok (db db2 : ResDB) (a : Nat) (u : ResourceUsageRow) (δ : Int)
    (hu : db.findUsage a = some u)
    (hok : add_pending_ram_usage db a δ = .ok db2) :
    ∃ v : Nat, db2.findUsage a = some { u with ram_usage := v } ∧
      (v : Int) = (u.ram_usage : Int) + δ := by
  unfold add_pending_ram_usage at hok
  by_cases h0 : δ = 0
  · refine ⟨u.ram_usage, ?_, by simp [h0]⟩
    rw [if_pos h0] at hok
    cases hok
    simpa using hu
  · simp only [if_neg h0, hu] at hok
    by_cases h1 : δ ≤ 0 ∨ (δ.toNat ≤ UINT64_MAX - u.ram_usage)
    · by_cases h2 : 0 ≤ δ ∨ ((-δ).toNat ≤ u.ram_usage)
      · rw [if_neg (not_not_intro h1), if_neg (not_not_intro h2)] at hok
        cases hok
        refine ⟨((u.ram_usage : Int) + δ).toNat, ?_, ?_⟩
        · rw [findUsage_setUsage db a
            (fun u => { u with ram_usage := ((u.ram_usage : Int) + δ).toNat })
            (fun r => rfl), hu]
          have heq : u.owner = a := by
            have := List.find?_some hu
            simpa using this
          simp [heq]
        · have hge : 0 ≤ (u.ram_usage : Int) + δ := by
            rcases h2 with h2 | h2
            · omega
            · omega
          omega
      · rw [if_neg (not_not_intro h1), if_pos h2] at hok
        cases hok
    · rw [if_pos h1] at hok
      cases hok

theorem findLimits_setLimits (db : ResDB) (pend : Bool) (a : Nat)
    (f : ResourceLimitsRow → ResourceLimitsRow)
    (hf : ∀ r, (f r).pending = r.pending ∧ (f r).owner = r.owner) :
    (db.setLimits pend a f).findLimits pend a =
      (db.findLimits pend a).map
        (fun r => if r.pending == pend && r.owner == a then f r else r) := by
  unfold ResDB.setLimits ResDB.findLimits
  apply find?_map_eq
  intro r
  by_cases h : (r.pending == pend && r.owner == a) = true
  · simp only [if_pos h, (hf r).1, (hf r).2]
  · simp only [if_neg h]

theorem find?_insertLimits (l : List ResourceLimitsRow) (r : ResourceLimitsRow)
    (p : ResourceLimitsRow → Bool) (hr : p r = true) (hl : l.find? p = none) :
    (insertLimits l r).find? p = some r := by
  induction l with
  | nil =>
    unfold insertLimits
    rw [List.find?_cons_of_pos _ hr]
  | cons x xs ih =>
    have hx : ¬ p x = true := by
      intro hpx
      rw [List.find?_cons_of_pos _ hpx] at hl
      cases hl
    rw [List.find?_cons_of_neg _ hx] at hl
    unfold insertLimits
    by_cases hlt : limitsKeyLt r.pending r.owner x.pending x.owner = true
    · rw [if_pos hlt, List.find?_cons_of_pos _ hr]
    · rw [if_neg hlt, List.find?_cons_of_neg _ hx]
      exact ih hl

/-- Claim C3: get_account_limits returns the pending row's quotas whenever a
pending row exists, else the active row's quotas, and fails with NotFound
when neither exists; consequently, immediately after a successful
set_account_limits (and before process_account_limit_updates) it returns the
newly set pending values. -/

theorem claim_C3 :
    (∀ (db : ResDB) (a : Nat) (p : ResourceLimitsRow),
        db.findLimits true a = some p →
        get_account_limits db a = .ok (p.ram_bytes, p.net_weight, p.cpu_weight))
  ∧ (∀ (db : ResDB) (a : Nat) (b : ResourceLimitsRow),
        db.findLimits true a = none → db.findLimits false a = some b →
        get_account_limits db a = .ok (b.ram_bytes, b.net_weight, b.cpu_weight))
  ∧ (∀ (db : ResDB) (a : Nat),
        db.findLimits true a = none → db.findLimits false a = none →
        get_account_limits db a = .error .notFound)
  ∧ (∀ (db db2 : ResDB) (a : Nat) (r n c : Int) (dec : Bool),
        set_account_limits db a r n c = .ok (db2, dec) →
        get_account_limits db2 a = .ok (r, n, c)) := by
  refine ⟨?_, ?_, ?_, ?_⟩
  · intro db a p hp
    simp [get_account_limits, hp]
  · intro db a b hnone hb
    simp [get_account_limits, hnone, hb]
  · intro db a hnone hnone2
    simp [get_account_limits, hnone, hnone2]
  · intro db db2 a r n c dec hok
    unfold set_account_limits at hok
    cases hfp : db.findLimits true a with
    | some p =>
      simp only [hfp] at hok
      cases hok
      have hpred : p.pending = true ∧ p.owner = a := by
        have h2 : List.find? (fun x => x.pending == true && x.owner == a) db.limits
            = some p := hfp
        simpa using List.find?_some h2
      unfold get_account_limits
      rw [findLimits_setLimits db true a
            (fun y => { y with ram_bytes := r, net_weight := n, cpu_weight := c })
            (fun _ => ⟨rfl, rfl⟩), hfp]
      simp [hpred.1, hpred.2]
    | none =>
      simp only [hfp] at hok
      cases hfb : db.findLimits false a with
      | none => simp [hfb] at hok
      | some b =>
        simp only [hfb] at hok
        cases hok
        have hbowner : b.owner = a := by
          have := List.find?_some hfb
          simp only [Bool.and_eq_true, beq_iff_eq] at this
          exact this.2
        unfold get_account_limits
        rw [findLimits_setLimits _ true a
              (fun y => { y with ram_bytes := r, net_weight := n, cpu_weight := c })
              (fun _ => ⟨rfl, rfl⟩)]
        have hfound :
            List.find? (fun x => x.pending == true && x.owner == a)
              (insertLimits db.limits
                { owner := b.owner, pending := true, ram_bytes := b.ram_bytes,
                  net_weight := b.net_weight, cpu_weight := b.cpu_weight }) =
            some { owner := b.owner, pending := true, ram_bytes := b.ram_bytes,
                   net_weight := b.net_weight, cpu_weight := b.cpu_weight } := by
          apply find?_insertLimits
          · simp [hbowner]
          · exact hfp
        have hfound2 :
            ResDB.findLimits
              { limits :=
                  insertLimits db.limits
                    { owner := b.owner, pending := true, ram_bytes := b.ram_bytes,
                      net_weight := b.net_weight, cpu_weight := b.cpu_weight },
                usage := db.usage, state := db.state, config := db.config }
              true a =
            some { owner := b.owner, pending := true, ram_bytes := b.ram_bytes,
                   net_weight := b.net_weight, cpu_weight := b.cpu_weight } := hfound
        rw [hfound2]
        simp [hbowner]

theorem claim_C3_witness :
    get_account_limits c3db 7 = .ok (1000, 5, 9) ∧
    ∃ db2 dec, set_account_limits c3db 7 (-1) 20 30 = .ok (db2, dec) ∧
      get_account_limits db2 7 = .ok (-1, 20, 30) := by
  constructor
  · exact claim_C3.2.1 c3db 7
      { owner := 7, pending := false, ram_bytes := 1000, net_weight := 5, cpu_weight := 9 }
      (by rfl) (by rfl)
  · have hok : set_account_limits c3db 7 (-1) 20 30 =
        .ok ({ limits := [{ owner := 7, pending := false, ram_bytes := 1000,
                            net_weight := 5, cpu_weight := 9 },
                          { owner := 7, pending := true, ram_bytes := -1,
                            net_weight := 20, cpu_weight := 30 }],
               usage := [], state := sampleState, config := sampleConfig }, false) := by rfl
    exact ⟨_, _, hok, claim_C3.2.2.2 c3db _ 7 (-1) 20 30 false hok⟩

/-- Claim C5: add_pending_ram_usage fails with transaction_exception exactly
when the signed delta would push the unsigned 64-bit counter above
UINT64_MAX or below zero (the failure raises before the counter is written,
so the counter is unchanged); otherwise the counter becomes the exact sum of
the old value and the delta, and a sequence of successful deltas summing to
zero returns the counter to its original value. -/

theorem claim_C5 :
    (∀ (db : ResDB) (a : Nat) (u : ResourceUsageRow) (δ : Int),
        db.findUsage a = some u → 0 < δ → (UINT64_MAX : Int) < (u.ram_usage : Int) + δ →
        add_pending_ram_usage db a δ = .error .transactionException)
  ∧ (∀ (db : ResDB) (a : Nat) (u : ResourceUsageRow) (δ : Int),
        db.findUsage a = some u → δ < 0 → (u.ram_usage : Int) + δ < 0 →
        add_pending_ram_usage db a δ = .error .transactionException)
  ∧ (∀ (db : ResDB) (a : Nat) (u : ResourceUsageRow) (δ : Int),
        db.findUsage a = some u →
        0 ≤ (u.ram_usage : Int) + δ → (u.ram_usage : Int) + δ ≤ (UINT64_MAX : Int) →
        ∃ db2, add_pending_ram_usage db a δ = .ok db2 ∧
          (db2.findUsage a).map (fun r => (r.ram_usage : Int)) =
            some ((u.ram_usage : Int) + δ))
  ∧ (∀ (db db2 : ResDB) (a : Nat) (u : ResourceUsageRow) (ds : List Int),
        db.findUsage a = some u → applyRamDeltas db a ds = .ok db2 → ds.sum = 0 →
        (db2.findUsage a).map (fun r => r.ram_usage) = some u.ram_usage) := by
  have key : ∀ (ds : List Int) (db db2 : ResDB) (a : Nat) (u : ResourceUsageRow),
      db.findUsage a = some u → applyRamDeltas db a ds = .ok db2 →
      ∃ v : Nat, db2.findUsage a = some { u with ram_usage := v } ∧
        (v : Int) = (u.ram_usage : Int) + ds.sum := by
    intro ds
    induction ds with
    | nil =>
      intro db db2 a u hu hok
      unfold applyRamDeltas at hok
      rw [List.foldlM_nil] at hok
      cases hok
      exact ⟨u.ram_usage, by simpa using hu, by simp⟩
    | cons δ ds ih =>
      intro db db2 a u hu hok
      unfold applyRamDeltas at hok
      rw [List.foldlM_cons] at hok
      cases hstep : add_pending_ram_usage db a δ with
      | error e => rw [hstep, except_bind_error] at hok; cases hok
      | ok db1 =>
        rw [hstep, except_bind_ok] at hok
        obtain ⟨v1, hfind1, hv1⟩ := add_pending_ram_usage_ok db db1 a u δ hu hstep
        obtain ⟨v2, hfind2, hv2⟩ := ih db1 db2 a { u with ram_usage := v1 } hfind1 hok
        refine ⟨v2, hfind2, ?_⟩
        simp only [List.sum_cons]
        simp only at hv2
        omega
  refine ⟨?_, ?_, ?_, ?_⟩
  · intro db a u δ hu hpos hover
    unfold add_pending_ram_usage
    have h0 : ¬ δ = 0 := by omega
    simp only [if_neg h0, hu]
    have h1 : ¬ (δ ≤ 0 ∨ (δ.toNat ≤ UINT64_MAX - u.ram_usage)) := by
      push_neg
      refine ⟨by omega, by omega⟩
    rw [if_pos h1]
  · intro db a u δ hu hneg hunder
    unfold add_pending_ram_usage
    have h0 : ¬ δ = 0 := by omega
    simp only [if_neg h0, hu]
    have h1 : δ ≤ 0 ∨ (δ.toNat ≤ UINT64_MAX - u.ram_usage) := Or.inl (by omega)
    have h2 : ¬ (0 ≤ δ ∨ ((-δ).toNat ≤ u.ram_usage)) := by
      push_neg
      refine ⟨by omega, by omega⟩
    rw [if_neg (not_not_intro h1), if_pos h2]
  · intro db a u δ hu hge hle
    have hok : ∃ db2, add_pending_ram_usage db a δ = .ok db2 := by
      unfold add_pending_ram_usage
      by_cases h0 : δ = 0
      · exact ⟨db, by rw [if_pos h0]⟩
      · simp only [if_neg h0, hu]
        have h1 : δ ≤ 0 ∨ (δ.toNat ≤ UINT64_MAX - u.ram_usage) := by
          by_cases hs : δ ≤ 0
          · exact Or.inl hs
          · exact Or.inr (by omega)
        have h2 : 0 ≤ δ ∨ ((-δ).toNat ≤ u.ram_usage) := by
          by_cases hs : 0 ≤ δ
          · exact Or.inl hs
          · exact Or.inr (by omega)
        rw [if_neg (not_not_intro h1), if_neg (not_not_intro h2)]
        exact ⟨_, rfl⟩
    obtain ⟨db2, hok⟩ := hok
    obtain ⟨v, hfind, hv⟩ := add_pending_ram_usage_ok db db2 a u δ hu hok
    exact ⟨db2, hok, by simp [hfind, hv]⟩
  · intro db db2 a u ds hu hok hsum
    obtain ⟨v, hfind, hv⟩ := key ds db db2 a u hu hok
    rw [hsum] at hv
    have : v = u.ram_usage := by omega
    simp [hfind, this]

theorem claim_C5_witness :
    add_pending_ram_usage c5db 7 (-200) = .error .transactionException ∧
    (c5db.findUsage 7).map (fun r => r.ram_usage) = some 100 ∧
    ∃ db2, applyRamDeltas c5db 7 [50, -30, -20] = .ok db2 ∧
      (db2.findUsage 7).map (fun r => r.ram_usage) = some 100 := by
  refine ⟨?_, by decide, ?_⟩
  · exact claim_C5.2.1 c5db 7 ⟨7, ⟨0, 0, 0⟩, ⟨0, 0, 0⟩, 100⟩ (-200) (by decide)
      (by decide) (by decide)
  · have hok : applyRamDeltas c5db 7 [50, -30, -20] = .ok c5db := by rfl
    exact ⟨c5db, hok,
      claim_C5.2.2.2 c5db c5db 7 ⟨7, ⟨0, 0, 0⟩, ⟨0, 0, 0⟩, 100⟩ [50, -30, -20]
        (by decide) hok (by decide)⟩

/-! ## Theorems about the contract table engine -/

theorem get_ok_nonneg (c : IteratorCache) (it : Int) (obj : KV)
    (h : c.get it = .ok obj) : 0 ≤ it := by
  unfold IteratorCache.get at h
  by_cases hlt : it < 0
  · rw [if_pos hlt] at h
    exact Except.noConfusion h
  · omega

theorem getEnd_ok_lt (c : IteratorCache) (tid : Nat) (e : Int)
    (h : c.getEndIteratorByTableId tid = .ok e) : e < -1 := by
  unfold IteratorCache.getEndIteratorByTableId at h
  split at h
  · cases h
    rename_i k hk
    omega
  · exact Except.noConfusion h

theorem find?_key_of_mem_nodup {α β : Type} (f : α → β) (a : α) (p : α → Bool)
    (hp : ∀ x, p x = true ↔ f x = f a) :
    ∀ (l : List α), (l.map f).Nodup → a ∈ l → l.find? p = some a := by
  intro l
  induction l with
  | nil => intro _ hmem; cases hmem
  | cons x xs ih =>
    intro hnd hmem
    rw [List.map_cons, List.nodup_cons] at hnd
    by_cases hpx : p x = true
    · rw [List.find?_cons_of_pos _ hpx]
      rcases List.mem_cons.mp hmem with h | h
      · rw [h]
      · have hfa : f a ∈ xs.map f := List.mem_map_of_mem f h
        rw [← (hp x).mp hpx] at hfa
        exact absurd hfa hnd.1
    · rw [List.find?_cons_of_neg _ hpx]
      rcases List.mem_cons.mp hmem with h | h
      · exact absurd ((hp x).mpr (by rw [h])) hpx
      · exact ih hnd.2 h

theorem find?_eraseP_key_none {α β : Type} (f : α → β) (p : α → Bool) (v : β)
    (hp : ∀ x, p x = true ↔ f x = v) :
    ∀ (l : List α), (l.map f).Nodup → (l.eraseP p).find? p = none := by
  intro l
  induction l with
  | nil => intro _; rfl
  | cons x xs ih =>
    intro hnd
    rw [List.map_cons, List.nodup_cons] at hnd
    by_cases hpx : p x = true
    · rw [List.eraseP_cons_of_pos hpx, List.find?_eq_none]
      intro y hy hpy
      have hyv : f y = v := (hp y).mp hpy
      have hxv : f x = v := (hp x).mp hpx
      exact hnd.1 (by rw [hxv, ← hyv]; exact List.mem_map_of_mem f hy)
    · rw [List.eraseP_cons_of_neg hpx, List.find?_cons_of_neg _ hpx]
      exact ih hnd.2

theorem map_map_eq_of_pres {α β : Type} (l : List α) (g : α → α) (f : α → β)
    (h : ∀ x, f (g x) = f x) : (l.map g).map f = l.map f := by
  rw [List.map_map]
  exact List.map_congr_left (fun x _ => h x)

/-- C1: cursor navigation never crosses a table boundary.  db_next_i64 on
any end iterator (a value below -1) returns -1; on a row iterator whose
successor in the shared index is missing or owned by a different table it
returns the cursor table's cached end iterator, a value below -1; whenever
db_next_i64 yields a primary key, that key comes from a successor row of the
same table.  db_previous_i64 returns -1 at the index beginning and when the
predecessor row is owned by a different table; whenever it yields a primary
key, the yielded row belongs to the cursor's own table (for a row iterator)
or to the end iterator's own table. -/

theorem claim_C1 :
    (∀ (db : ContractDB) (cache : IteratorCache) (it : Int), it < -1 →
       db_next_i64 db cache it = .ok (-1, cache, none))
  ∧ (∀ (db : ContractDB) (cache : IteratorCache) (it e : Int) (obj : KV),
       cache.get it = .ok obj →
       (succRow db.kvIndex obj = .ok none ∨
         (∃ nxt, succRow db.kvIndex obj = .ok (some nxt) ∧ nxt.t_id ≠ obj.t_id)) →
       cache.getEndIteratorByTableId obj.t_id = .ok e →
       db_next_i64 db cache it = .ok (e, cache, none) ∧ e < -1)
  ∧ (∀ (db : ContractDB) (cache : IteratorCache) (it rv : Int)
       (c2 : IteratorCache) (pk : Nat),
       db_next_i64 db cache it = .ok (rv, c2, some pk) →
       ∃ obj nxt, cache.get it = .ok obj ∧
         succRow db.kvIndex obj = .ok (some nxt) ∧
         nxt.t_id = obj.t_id ∧ pk = nxt.primary_key)
  ∧ (∀ (db : ContractDB) (cache : IteratorCache) (it : Int) (obj : KV) (i : Nat),
       cache.get it = .ok obj →
       db.kvIndex.findIdx? (fun r => r.t_id == obj.t_id &&
         r.primary_key == obj.primary_key) = some i →
       (i = 0 ∨ (∃ prev, db.kvIndex[i - 1]? = some prev ∧ prev.t_id ≠ obj.t_id)) →
       db_previous_i64 db cache it = .ok (-1, cache, none))
  ∧ (∀ (db : ContractDB) (cache : IteratorCache) (it rv : Int)
       (c2 : IteratorCache) (pk : Nat),
       db_previous_i64 db cache it = .ok (rv, c2, some pk) →
       (∃ obj prev, cache.get it = .ok obj ∧ prev ∈ db.kvIndex ∧
          prev.t_id = obj.t_id ∧ pk = prev.primary_key) ∨
       (∃ tab prev, cache.findTableByEndIterator it = .ok (some tab) ∧
          prev ∈ db.kvIndex ∧ prev.t_id = tab.id ∧ pk = prev.primary_key)) := by
  refine ⟨?_, ?_, ?_, ?_, ?_⟩
  · intro db cache it hlt
    unfold db_next_i64
    rw [if_pos hlt]
  · intro db cache it e obj hget hs he
    have hge : 0 ≤ it := get_ok_nonneg cache it obj hget
    refine ⟨?_, getEnd_ok_lt cache obj.t_id e he⟩
    unfold db_next_i64
    rw [if_neg (by omega : ¬ it < -1)]
    simp only [hget]
    rcases hs with hs | ⟨nxt, hs, hne⟩
    · simp only [hs, he]
    · simp only [hs]
      rw [if_neg (by simpa using hne)]
      simp only [he]
  · intro db cache it rv c2 pk heq
    unfold db_next_i64 at heq
    by_cases hlt : it < -1
    · rw [if_pos hlt] at heq
      simp at heq
    · rw [if_neg hlt] at heq
      cases hcg : cache.get it with
      | error e => simp only [hcg] at heq; exact Except.noConfusion heq
      | ok obj =>
        simp only [hcg] at heq
        cases hsr : succRow db.kvIndex obj with
        | error e => simp only [hsr] at heq; exact Except.noConfusion heq
        | ok onxt =>
          simp only [hsr] at heq
          cases onxt with
          | none =>
            cases hge : cache.getEndIteratorByTableId obj.t_id with
            | error e => simp only [hge] at heq; exact Except.noConfusion heq
            | ok ei => simp only [hge] at heq; simp at heq
          | some nxt =>
            have heq2 : (if (nxt.t_id == obj.t_id) = true then
                Except.ok ((cache.add nxt).1, (cache.add nxt).2, some nxt.primary_key)
              else match cache.getEndIteratorByTableId obj.t_id with
                | .error e => .error e
                | .ok ei => .ok (ei, cache, none)) =
                (Except.ok (rv, c2, some pk) :
                  Except Err (Int × IteratorCache × Option Nat)) := heq
            by_cases htid : (nxt.t_id == obj.t_id) = true
            · rw [if_pos htid] at heq2
              simp only [Except.ok.injEq, Prod.mk.injEq, Option.some.injEq] at heq2
              exact ⟨obj, nxt, rfl, hsr, by simpa using htid, heq2.2.2.symm⟩
            · rw [if_neg htid] at heq2
              cases hge : cache.getEndIteratorByTableId obj.t_id with
              | error e => simp only [hge] at heq2; exact Except.noConfusion heq2
              | ok ei => simp only [hge] at heq2; simp at heq2
  · intro db cache it obj i hget hidx hcond
    have hge : 0 ≤ it := get_ok_nonneg cache it obj hget
    unfold db_previous_i64
    rw [if_neg (by omega : ¬ it < -1)]
    simp only [hget, hidx]
    by_cases hi : i = 0
    · rw [if_pos hi]
    · rw [if_neg hi]
      rcases hcond with hc | ⟨prev, hp, hne⟩
      · exact absurd hc hi
      · simp only [hp]
        rw [if_pos hne]
  · intro db cache it rv c2 pk heq
    unfold db_previous_i64 at heq
    by_cases hlt : it < -1
    · rw [if_pos hlt] at heq
      right
      cases hft : cache.findTableByEndIterator it with
      | error e => simp only [hft] at heq; exact Except.noConfusion heq
      | ok otab =>
        simp only [hft] at heq
        cases otab with
        | none => exact Except.noConfusion heq
        | some tab =>
          have heq2 : (if db.kvIndex.isEmpty = true ∨
              db.kvIndex.findIdx (fun r => tab.id < r.t_id) = 0 then
              Except.ok (-1, cache, none)
            else match db.kvIndex[db.kvIndex.findIdx (fun r => tab.id < r.t_id) - 1]? with
              | none => Except.ok (-1, cache, none)
              | some prev =>
                if prev.t_id ≠ tab.id then Except.ok (-1, cache, none)
                else Except.ok ((cache.add prev).1, (cache.add prev).2,
                  some prev.primary_key)) =
              (Except.ok (rv, c2, some pk) :
                Except Err (Int × IteratorCache × Option Nat)) := heq
          by_cases hemp : (db.kvIndex.isEmpty = true ∨
              db.kvIndex.findIdx (fun r => tab.id < r.t_id) = 0)
          · rw [if_pos hemp] at heq2
            simp at heq2
          · rw [if_neg hemp] at heq2
            cases hgp : db.kvIndex[db.kvIndex.findIdx (fun r => tab.id < r.t_id) - 1]? with
            | none => simp only [hgp] at heq2; simp at heq2
            | some prev =>
              simp only [hgp] at heq2
              by_cases hne : prev.t_id ≠ tab.id
              · rw [if_pos hne] at heq2
                simp at heq2
              · rw [if_neg hne] at heq2
                simp only [Except.ok.injEq, Prod.mk.injEq, Option.some.injEq] at heq2
                exact ⟨tab, prev, rfl, List.getElem?_mem hgp,
                  not_ne_iff.mp hne, heq2.2.2.symm⟩
    · rw [if_neg hlt] at heq
      left
      cases hcg : cache.get it with
      | error e => simp only [hcg] at heq; exact Except.noConfusion heq
      | ok obj =>
        simp only [hcg] at heq
        cases hix : db.kvIndex.findIdx? (fun r => r.t_id == obj.t_id &&
            r.primary_key == obj.primary_key) with
        | none => simp only [hix] at heq; exact Except.noConfusion heq
        | some i =>
          simp only [hix] at heq
          by_cases hi : i = 0
          · rw [if_pos hi] at heq
            simp at heq
          · rw [if_neg hi] at heq
            cases hgp : db.kvIndex[i - 1]? with
            | none => simp only [hgp] at heq; simp at heq
            | some prev =>
              simp only [hgp] at heq
              by_cases hne : prev.t_id ≠ obj.t_id
              · rw [if_pos hne] at heq
                simp at heq
              · rw [if_neg hne] at heq
                simp only [Except.ok.injEq, Prod.mk.injEq, Option.some.injEq] at heq
                exact ⟨obj, prev, rfl, List.getElem?_mem hgp,
                  not_ne_iff.mp hne, heq.2.2.symm⟩

theorem claim_C1_witness :
    db_next_i64 c1db c1cache (-5) = .ok (-1, c1cache, none) ∧
    (db_next_i64 c1db c1cache 0 = .ok (-2, c1cache, none) ∧ (-2 : Int) < -1) ∧
    db_previous_i64 c1db c1cache 0 = .ok (-1, c1cache, none) :=
  ⟨claim_C1.1 c1db c1cache (-5) (by decide),
   claim_C1.2.1 c1db c1cache 0 (-2) c1kvA (by rfl)
     (Or.inr ⟨c1kvB, by rfl, by decide⟩) (by rfl),
   claim_C1.2.2.2.1 c1db c1cache 0 c1kvA 0 (by rfl) (by rfl) (Or.inl rfl)⟩

/-- C10: db_remove_i64 fails with table_access_violation — before any
mutation — when the owning table's code account differs from the receiver;
on success it returns the negative delta -(payload size + fixed per-row
billable size), removes the row, decrements the owning table's uint32 row
count, erases the table when the count reaches zero (keeping it, with the
decremented count, otherwise), and drops the handle from the cache. -/

theorem claim_C10 :
    (∀ (db : ContractDB) (cache : IteratorCache) (it : Int) (receiver : Nat)
       (obj : KV) (tab : TableRow),
       cache.get it = .ok obj → cache.getTable obj.t_id = .ok tab →
       tab.code ≠ receiver →
       db_remove_i64 db cache it receiver = .error .tableAccessViolation)
  ∧ (∀ (db : ContractDB) (cache : IteratorCache) (it : Int) (receiver : Nat)
       (obj : KV) (tab : TableRow),
       cache.get it = .ok obj → cache.getTable obj.t_id = .ok tab →
       tab.code = receiver →
       db_remove_i64 db cache it receiver =
         .ok (-((obj.value.length + billable_size_key_value_object : Nat) : Int),
           { tables := if (tab.count + (U32 - 1)) % U32 = 0 then
                 (db.tables.map (fun t => if t.id == tab.id then
                   { t with count := (tab.count + (U32 - 1)) % U32 } else t)).eraseP
                   (fun t => t.id == tab.id)
               else
                 db.tables.map (fun t => if t.id == tab.id then
                   { t with count := (tab.count + (U32 - 1)) % U32 } else t),
             kvIndex := db.kvIndex.eraseP (fun r => r.t_id == obj.t_id &&
               r.primary_key == obj.primary_key) },
           cache.remove it) ∧
       -((obj.value.length + billable_size_key_value_object : Nat) : Int) < 0)
  ∧ (∀ (tab : TableRow), 0 < tab.count → tab.count < U32 →
       (tab.count + (U32 - 1)) % U32 = tab.count - 1)
  ∧ (∀ (db : ContractDB) (tab : TableRow) (n : Nat),
       (db.tables.map TableRow.id).Nodup → tab ∈ db.tables →
       ((n = 0 →
          ((db.tables.map (fun t => if t.id == tab.id then { t with count := n }
              else t)).eraseP (fun t => t.id == tab.id)).find?
            (fun t => t.id == tab.id) = none) ∧
        (db.tables.map (fun t => if t.id == tab.id then { t with count := n }
            else t)).find? (fun t => t.id == tab.id) =
          some { tab with count := n })) := by
  refine ⟨?_, ?_, ?_, ?_⟩
  · intro db cache it receiver obj tab hget htab hcode
    unfold db_remove_i64
    simp only [hget, htab]
    rw [if_pos hcode]
  · intro db cache it receiver obj tab hget htab hcode
    constructor
    · unfold db_remove_i64
      simp only [hget, htab]
      rw [if_neg (not_not_intro hcode)]
    · have hb : billable_size_key_value_object = 112 := by rfl
      rw [hb]
      omega
  · intro tab h1 h2
    have hu : U32 = 4294967296 := by rfl
    rw [hu] at h2 ⊢
    omega
  · intro db tab n hnd hmem
    have hp : ∀ x : TableRow, (x.id == tab.id) = true ↔ x.id = tab.id := by
      intro x; simp
    have hfind : db.tables.find? (fun t => t.id == tab.id) = some tab :=
      find?_key_of_mem_nodup TableRow.id tab (fun t => t.id == tab.id) hp
        db.tables hnd hmem
    have hgp : ∀ r : TableRow,
        ((if r.id == tab.id then { r with count := n } else r).id == tab.id) =
          (r.id == tab.id) := by
      intro r
      by_cases h : (r.id == tab.id) = true
      · rw [if_pos h]
      · rw [if_neg h]
    have hmap : (db.tables.map (fun t => if t.id == tab.id then
        { t with count := n } else t)).find? (fun t => t.id == tab.id) =
        some { tab with count := n } := by
      rw [find?_map_eq db.tables (fun t => t.id == tab.id)
        (fun t => if t.id == tab.id then { t with count := n } else t) hgp, hfind]
      simp
    refine ⟨?_, hmap⟩
    intro _
    have hgid : ∀ x : TableRow,
        (if x.id == tab.id then { x with count := n } else x).id = x.id := by
      intro x
      by_cases h : (x.id == tab.id) = true
      · rw [if_pos h]
      · rw [if_neg h]
    have hnd2 : ((db.tables.map (fun t => if t.id == tab.id then
        { t with count := n } else t)).map TableRow.id).Nodup := by
      rw [map_map_eq_of_pres db.tables _ TableRow.id hgid]
      exact hnd
    exact find?_eraseP_key_none TableRow.id (fun t => t.id == tab.id) tab.id hp
      (db.tables.map (fun t => if t.id == tab.id then { t with count := n } else t))
      hnd2

theorem claim_C10_witness :
    db_remove_i64 c10db c10cache 0 999 = .error .tableAccessViolation ∧
    -((3 + billable_size_key_value_object : Nat) : Int) < 0 ∧
    (5 + (U32 - 1)) % U32 = 5 - 1 :=
  ⟨claim_C10.1 c10db c10cache 0 999 c10kv c10T1 (by rfl) (by rfl) (by decide),
   (claim_C10.2.1 c10db c10cache 0 100 c10kv c10T1 (by rfl) (by rfl) (by rfl)).2,
   claim_C10.2.2.1 c10tab5 (by decide) (by decide)⟩

theorem cpu_gate_char (db : ResDB) (u : ResourceUsageRow) (cw : Int) (ac : Nat) :
    cpu_gate db u cw ac =
      if 0 ≤ cw ∧ 0 < db.state.total_cpu_weight ∧
          ¬ (cpu_used_in_window db u ≤ cpu_allowed_in_window db cw) then
        .error (.txCpuUsageExceeded ac)
      else .ok () := by
  unfold cpu_gate
  by_cases h1 : 0 ≤ cw ∧ 0 < db.state.total_cpu_weight
  · rw [if_pos h1]
    by_cases h2 : cpu_used_in_window db u ≤ cpu_allowed_in_window db cw
    · rw [if_neg (not_not_intro h2), if_neg (fun h => h.2.2 h2)]
    · rw [if_pos h2, if_pos ⟨h1.1, h1.2, h2⟩]
  · rw [if_neg h1, if_neg (fun h => h1 ⟨h.1, h.2.1⟩)]

theorem net_gate_char (db : ResDB) (u : ResourceUsageRow) (nw : Int) (ac : Nat)
    (db1 : ResDB) :
    net_gate db u nw ac db1 =
      if 0 ≤ nw ∧ 0 < db.state.total_net_weight ∧
          ¬ (net_used_in_window db u ≤ net_allowed_in_window db nw) then
        .error (.txNetUsageExceeded ac)
      else .ok db1 := by
  unfold net_gate
  by_cases h1 : 0 ≤ nw ∧ 0 < db.state.total_net_weight
  · rw [if_pos h1]
    by_cases h2 : net_used_in_window db u ≤ net_allowed_in_window db nw
    · rw [if_neg (not_not_intro h2), if_neg (fun h => h.2.2 h2)]
    · rw [if_pos h2, if_pos ⟨h1.1, h1.2, h2⟩]
  · rw [if_neg h1, if_neg (fun h => h1 ⟨h.1, h.2.1⟩)]

theorem ata_account_char (db : ResDB) (ac c n t : Nat) (u0 : ResourceUsageRow)
    (rb nw cw : Int) (hu : db.findUsage ac = some u0)
    (hl : get_account_limits db ac = .ok (rb, nw, cw)) :
    ata_account db ac c n t =
      if 0 ≤ cw ∧ 0 < db.state.total_cpu_weight ∧
          ¬ (cpu_used_in_window db (foldUsage db u0 c n t) ≤
             cpu_allowed_in_window db cw) then
        .error (.txCpuUsageExceeded ac)
      else if 0 ≤ nw ∧ 0 < db.state.total_net_weight ∧
          ¬ (net_used_in_window db (foldUsage db u0 c n t) ≤
             net_allowed_in_window db nw) then
        .error (.txNetUsageExceeded ac)
      else .ok (db.setUsage ac (fun bu => foldUsage db bu c n t)) := by
  unfold ata_account
  simp only [hu, hl]
  rw [cpu_gate_char]
  by_cases h1 : 0 ≤ cw ∧ 0 < db.state.total_cpu_weight ∧
      ¬ (cpu_used_in_window db (foldUsage db u0 c n t) ≤
         cpu_allowed_in_window db cw)
  · simp only [if_pos h1]
  · simp only [if_neg h1]
    rw [net_gate_char]

theorem add_tx_singleton_char (db : ResDB) (ac c n t : Nat)
    (u0 : ResourceUsageRow) (rb nw cw : Int) (hu : db.findUsage ac = some u0)
    (hl : get_account_limits db ac = .ok (rb, nw, cw)) :
    add_transaction_usage db [ac] c n t =
      if 0 ≤ cw ∧ 0 < db.state.total_cpu_weight ∧
          ¬ (cpu_used_in_window db (foldUsage db u0 c n t) ≤
             cpu_allowed_in_window db cw) then
        .error (.txCpuUsageExceeded ac)
      else if 0 ≤ nw ∧ 0 < db.state.total_net_weight ∧
          ¬ (net_used_in_window db (foldUsage db u0 c n t) ≤
             net_allowed_in_window db nw) then
        .error (.txNetUsageExceeded ac)
      else if ¬ ((db.state.pending_cpu_usage + c) % U64 ≤
          db.config.cpu_limit_parameters.max) then
        .error .blockResourceExhausted
      else if ¬ ((db.state.pending_net_usage + n) % U64 ≤
          db.config.net_limit_parameters.max) then
        .error .blockResourceExhausted
      else .ok { db.setUsage ac (fun bu => foldUsage db bu c n t) with
        state := { db.state with
          pending_cpu_usage := (db.state.pending_cpu_usage + c) % U64,
          pending_net_usage := (db.state.pending_net_usage + n) % U64 } } := by
  unfold add_transaction_usage
  have hloop : ata_loop c n t [ac] db = ata_account db ac c n t := by
    cases hA : ata_account db ac c n t with
    | error e => simp only [ata_loop, hA]
    | ok db2 => simp only [ata_loop, hA]
  rw [hloop, ata_account_char db ac c n t u0 rb nw cw hu hl]
  by_cases h1 : 0 ≤ cw ∧ 0 < db.state.total_cpu_weight ∧
      ¬ (cpu_used_in_window db (foldUsage db u0 c n t) ≤
         cpu_allowed_in_window db cw)
  · simp only [if_pos h1]
  · simp only [if_neg h1]
    by_cases h2 : 0 ≤ nw ∧ 0 < db.state.total_net_weight ∧
        ¬ (net_used_in_window db (foldUsage db u0 c n t) ≤
           net_allowed_in_window db nw)
    · simp only [if_pos h2]
    · simp only [if_neg h2]
      rfl

/-- C4 (amended): for a single authorizing account, the call fails with
TxCpuUsageExceeded naming the account exactly when cpu_weight is
non-negative, the global CPU weight total is positive, and the folded
windowed CPU usage exceeds the account's share of the virtual capacity; it
fails with TxNetUsageExceeded exactly when, in addition to the symmetric NET
condition, the CPU check did NOT fire (the CPU check runs first and wins);
an account with both weights negative or both totals zero is never rejected
per-account, its usage still being folded into the accumulators. -/

theorem claim_C4 (db : ResDB) (ac c n t : Nat) (u0 : ResourceUsageRow)
    (rb nw cw : Int) (hu : db.findUsage ac = some u0)
    (hl : get_account_limits db ac = .ok (rb, nw, cw)) :
    (add_transaction_usage db [ac] c n t = .error (.txCpuUsageExceeded ac) ↔
      (0 ≤ cw ∧ 0 < db.state.total_cpu_weight ∧
        ¬ (cpu_used_in_window db (foldUsage db u0 c n t) ≤
           cpu_allowed_in_window db cw)))
  ∧ (add_transaction_usage db [ac] c n t = .error (.txNetUsageExceeded ac) ↔
      ((0 ≤ cw ∧ 0 < db.state.total_cpu_weight →
         cpu_used_in_window db (foldUsage db u0 c n t) ≤
           cpu_allowed_in_window db cw) ∧
       (0 ≤ nw ∧ 0 < db.state.total_net_weight ∧
        ¬ (net_used_in_window db (foldUsage db u0 c n t) ≤
           net_allowed_in_window db nw))))
  ∧ ((cw < 0 ∨ db.state.total_cpu_weight = 0) →
     (nw < 0 ∨ db.state.total_net_weight = 0) →
     (db.state.pending_cpu_usage + c) % U64 ≤ db.config.cpu_limit_parameters.max →
     (db.state.pending_net_usage + n) % U64 ≤ db.config.net_limit_parameters.max →
     add_transaction_usage db [ac] c n t =
       .ok { db.setUsage ac (fun bu => foldUsage db bu c n t) with
         state := { db.state with
           pending_cpu_usage := (db.state.pending_cpu_usage + c) % U64,
           pending_net_usage := (db.state.pending_net_usage + n) % U64 } }) := by
  have hchar := add_tx_singleton_char db ac c n t u0 rb nw cw hu hl
  refine ⟨?_, ?_, ?_⟩
  · rw [hchar]
    by_cases h1 : 0 ≤ cw ∧ 0 < db.state.total_cpu_weight ∧
        ¬ (cpu_used_in_window db (foldUsage db u0 c n t) ≤
           cpu_allowed_in_window db cw)
    · rw [if_pos h1]
      exact iff_of_true rfl h1
    · rw [if_neg h1]
      refine iff_of_false ?_ h1
      intro hcon
      split at hcon
      · simp at hcon
      · split at hcon
        · simp at hcon
        · split at hcon
          · simp at hcon
          · simp at hcon
  · rw [hchar]
    by_cases h1 : 0 ≤ cw ∧ 0 < db.state.total_cpu_weight ∧
        ¬ (cpu_used_in_window db (foldUsage db u0 c n t) ≤
           cpu_allowed_in_window db cw)
    · rw [if_pos h1]
      refine iff_of_false (by simp) ?_
      intro hr
      exact h1.2.2 (hr.1 ⟨h1.1, h1.2.1⟩)
    · rw [if_neg h1]
      by_cases h2 : 0 ≤ nw ∧ 0 < db.state.total_net_weight ∧
          ¬ (net_used_in_window db (foldUsage db u0 c n t) ≤
             net_allowed_in_window db nw)
      · rw [if_pos h2]
        refine iff_of_true rfl ⟨?_, h2⟩
        intro hpc
        by_contra hn
        exact h1 ⟨hpc.1, hpc.2, hn⟩
      · rw [if_neg h2]
        refine iff_of_false ?_ (fun hr => h2 hr.2)
        intro hcon
        split at hcon
        · simp at hcon
        · split at hcon
          · simp at hcon
          · simp at hcon
  · intro hcw hnw hbc hbn
    rw [hchar]
    have h1 : ¬ (0 ≤ cw ∧ 0 < db.state.total_cpu_weight ∧
        ¬ (cpu_used_in_window db (foldUsage db u0 c n t) ≤
           cpu_allowed_in_window db cw)) := by
      rcases hcw with h | h
      · exact fun hc => absurd hc.1 (by omega)
      · exact fun hc => absurd hc.2.1 (by omega)
    have h2 : ¬ (0 ≤ nw ∧ 0 < db.state.total_net_weight ∧
        ¬ (net_used_in_window db (foldUsage db u0 c n t) ≤
           net_allowed_in_window db nw)) := by
      rcases hnw with h | h
      · exact fun hc => absurd hc.1 (by omega)
      · exact fun hc => absurd hc.2.1 (by omega)
    rw [if_neg h1, if_neg h2, if_neg (not_not_intro hbc), if_neg (not_not_intro hbn)]

theorem claim_C4_counterexample :
    (0 ≤ (1 : Int) ∧ 0 < c4db.state.total_net_weight ∧
      ¬ (net_used_in_window c4db (foldUsage c4db c4u0 1 1 1) ≤
         net_allowed_in_window c4db 1)) ∧
    add_transaction_usage c4db [1] 1 1 1 = .error (.txCpuUsageExceeded 1) ∧
    ¬ (add_transaction_usage c4db [1] 1 1 1 = .error (.txNetUsageExceeded 1)) := by
  have hx : add_transaction_usage c4db [1] 1 1 1 =
      .error (.txCpuUsageExceeded 1) := by rfl
  refine ⟨⟨by decide, by decide, by decide⟩, hx, ?_⟩
  rw [hx]
  simp

theorem claim_C4_witness :
    add_transaction_usage c4wdb [1] 2 3 1 =
      .ok { c4wdb.setUsage 1 (fun bu => foldUsage c4wdb bu 2 3 1) with
        state := { c4wdb.state with
          pending_cpu_usage := (c4wdb.state.pending_cpu_usage + 2) % U64,
          pending_net_usage := (c4wdb.state.pending_net_usage + 3) % U64 } } :=
  (claim_C4 c4wdb 1 2 3 1 c4u0 0 (-1) (-1) (by rfl) (by rfl)).2.2
    (Or.inl (by decide)) (Or.inl (by decide)) (by decide) (by decide)

theorem walkLoop_no_deadline (dl : Nat → Bool) (hdl : ∀ k, dl k = false)
    (limit : Nat) :
    ∀ (rows : List KV) (count : Nat),
      walkLoop dl limit rows count =
        ((rows.take (limit - count)).map (fun r => (r.value, r.payer)),
         rows.drop (limit - count)) := by
  intro rows
  induction rows with
  | nil =>
    intro count
    unfold walkLoop
    by_cases h : count < limit
    · rw [if_pos h]
      simp
    · rw [if_neg h]
      simp
  | cons r rest ih =>
    intro count
    unfold walkLoop
    by_cases h : count < limit
    · rw [if_pos h]
      simp only [hdl, Bool.false_eq_true, if_false]
      rw [ih (count + 1)]
      have hlc : limit - count = (limit - (count + 1)) + 1 := by omega
      rw [hlc]
      simp
    · rw [if_neg h]
      have h0 : limit - count = 0 := by omega
      rw [h0]
      simp

/-- C2 (amended): when the deadline never fires, a forward scan over a
found table with parsed bounds lo <= hi returns exactly the first
limit-clamped rows of the [lo, hi] segment, and when rows remain unread it
reports more = true with next_key the decimal string of the first UNREAD
key, so resuming at next_key walks on without duplicates or gaps; in the
concrete 2500-key scenario with limit 1000, the first call returns keys
1..1000 with next_key "1001", the second (lower_bound "1001") keys
1001..2000 with next_key "2001", and the third (lower_bound "2001") keys
2001..2500 — not 2000..2500 — with more = false; the scenario is proved here
downscaled by 100 (25 keys, limit 10, calls at "", "11", "21"), the third
call returning keys 21..25 and not 20..25. -/

theorem claim_C2 :
    (∀ (db : ContractDB) (code scope table : Nat) (lb ub : String)
       (limit : Nat) (deadline_finite : Bool) (dl : Nat → Bool)
       (t : TableRow) (lo hi : Nat),
       (∀ k, dl k = false) →
       findTable db code scope table = some t →
       parseBound lb 0 = .ok lo →
       parseBound ub UINT64_MAX = .ok hi →
       ¬ hi < lo →
       get_table_rows_ex db code scope table lb ub limit false deadline_finite dl =
         .ok (((tableSeg db t.id lo hi).take
             (if deadline_finite = true ∧ 1000 < limit then 1000 else limit)).map
             (fun r => (r.value, r.payer)),
           match (tableSeg db t.id lo hi).drop
               (if deadline_finite = true ∧ 1000 < limit then 1000 else limit) with
           | [] => (false, "")
           | r :: _ => (true, Nat.repr r.primary_key)))
  ∧ get_table_rows_ex c2db 100 0 11 "" "" 10 false true (fun _ => false) =
      .ok (rowsRange 1 10, true, "11")
  ∧ get_table_rows_ex c2db 100 0 11 "11" "" 10 false true (fun _ => false) =
      .ok (rowsRange 11 10, true, "21")
  ∧ get_table_rows_ex c2db 100 0 11 "21" "" 10 false true (fun _ => false) =
      .ok (rowsRange 21 5, false, "") := by
  refine ⟨?_, by rfl, by rfl, by rfl⟩
  intro db code scope table lb ub limit deadline_finite dl t lo hi hdl hft hlo hhi hnl
  unfold get_table_rows_ex
  simp only [hft, hlo, hhi]
  rw [if_neg hnl]
  rw [walkLoop_no_deadline dl hdl]
  cases hd : (tableSeg db t.id lo hi).drop
      (if deadline_finite = true ∧ 1000 < limit then 1000 else limit) with
  | nil =>
    simp only [Nat.sub_zero, if_false, Bool.false_eq_true, hd]
  | cons r rest =>
    simp only [Nat.sub_zero, if_false, Bool.false_eq_true, hd]

theorem claim_C2_counterexample :
    (get_table_rows_ex c2small 100 0 11 "" "" 2 false true (fun k => k == 0) =
       .ok ([([1], 7)], true, "1") ∧
     ¬ (1 = 2) ∧
     ¬ ("1" = Nat.repr 2)) ∧
    (get_table_rows_ex c2db 100 0 11 "21" "" 10 false true (fun _ => false) =
       .ok (rowsRange 21 5, false, "") ∧
     (rowsRange 21 5).head? = some ([21], 7) ∧
     ¬ (rowsRange 21 5).head? = some ([20], 7)) := by
  exact ⟨⟨by rfl, by decide, by decide⟩, ⟨by rfl, by rfl, by decide⟩⟩

theorem claim_C2_witness :
    get_table_rows_ex c2small 100 0 11 "" "" 2 false true (fun _ => false) =
      .ok ([([1], 7), ([2], 7)], true, "3") :=
  claim_C2.1 c2small 100 0 11 "" "" 2 true (fun _ => false) c2T 0 UINT64_MAX
    (fun _ => rfl) (by rfl) (by rfl) (by rfl) (by decide)

end PulseVM
